import Mathlib

/-!
# trashman2: first-seen timestamps and age-based removal

A shallow embedding of `main.go`.  The program keeps a "first seen" date in the
extended attribute `user.com.ath0.tm.date` of every entry it visits and removes
the entries whose date is older than a retention period.

The operating system is an explicit `World` value that every operation threads
through: a finite file system, a clock, and the record of the system calls and
of the output produced so far.  Each entry of the file system carries the
errors the system answers on it, so that every call of the program can fail.

Conventions of the model:

* a `time.Time` is its wall instant in nanoseconds since 0001-01-01T00:00:00Z
  together with the monotonic reading that `time.Now` attaches (as it does for
  clock values in the years 1885 to 2157); time zones are left out, two times of
  the same instant being interchangeable for the program;
* the realtime clock never reads before the Unix epoch;
* `time.Parse` and `Time.Format` belong to the Go library: the general theorems
  take them as a `Codec` parameter, and `rfc3339` is a reference implementation
  of the UTC form, used to evaluate the program on concrete attribute values;
* `os.RemoveAll` deletes what it can: when it fails, the entries that could not
  be deleted and their ancestors up to the argument are what is left.
-/

namespace Trashman

/-! ## Go values -/

/-- A cleaned path, as the list of its components. -/
abbrev Path := List String

/-- A Go `error`, identified with its message (`err.Error()`). -/
abbrev Err := String

/-- Smallest `time.Duration` (a signed 64-bit count of nanoseconds). -/
def minDuration : Int := -(2 ^ 63)

/-- Largest `time.Duration`. -/
def maxDuration : Int := 2 ^ 63 - 1

/-- Two's complement reduction of an integer to the signed 64-bit range. -/
def wrap64 (x : Int) : Int := (x + 2 ^ 63) % 2 ^ 64 - 2 ^ 63

/-- Saturation to the `time.Duration` range, as `Time.Sub` does on overflow. -/
def clampDuration (x : Int) : Int :=
  if x < minDuration then minDuration
  else if maxDuration < x then maxDuration
  else x

/-- The constant `time.Hour`, in nanoseconds. -/
def Hour : Int := 3600000000000

/-- Nanoseconds per second. -/
def Second : Int := 1000000000

/-- Seconds from 0001-01-01T00:00:00Z to the Unix epoch (`unixToInternal`). -/
def unixToInternal : Int := 62135596800

/-- A `time.Time`: the wall instant in nanoseconds since 0001-01-01T00:00:00Z
and, for values obtained from `time.Now`, the monotonic clock reading. -/
structure Time where
  wall : Int
  mono : Option Int
deriving DecidableEq, Repr

/-- The zero value `time.Time{}`. -/
def Time.zero : Time := ⟨0, none⟩

/-- Go's `Time.IsZero`: the instant is January 1, year 1, 00:00:00 UTC. -/
def Time.IsZero (t : Time) : Bool := t.wall == 0

/-- Go's `Time.Sub`: the monotonic readings are used when both times carry one,
the wall instants otherwise; the result saturates. -/
def Time.Sub (t u : Time) : Int :=
  match t.mono, u.mono with
  | some a, some b => clampDuration (a - b)
  | _, _ => clampDuration (t.wall - u.wall)

deriving instance DecidableEq for Except

/-- The library functions `time.Parse(time.RFC3339, ·)` and
`Time.Format(time.RFC3339)`, on wall instants. -/
structure Codec where
  parse : String → Except Err Int
  format : Int → String

/-! ## The operating system -/

/-- One entry of the file system, with the error the system answers on it to
each kind of call, if any: `statErr` to `os.Stat`, `getErr` to the attribute
read, `setErr` to the attribute write, `rmErr` to the deletion of the entry by
`os.Remove` or inside `os.RemoveAll`, `readErr` to the listing `processDir`
asks for.  The answers are independent of one another. -/
structure Node where
  isDir : Bool
  attr : Option String
  statErr : Option Err := none
  getErr : Option Err := none
  setErr : Option Err := none
  rmErr : Option Err := none
  readErr : Option Err := none
deriving DecidableEq, Repr

/-- A reading of the system clocks: the realtime clock in nanoseconds since the
Unix epoch (never negative) and the monotonic clock. -/
structure Reading where
  unixNano : Nat
  mono : Nat
deriving DecidableEq, Repr

/-- System calls, in the order they are issued. -/
inductive Call where
  | stat (p : Path)
  | getxattr (p : Path)
  | setxattr (p : Path) (v : String)
  | remove (p : Path)
  | removeAll (p : Path)
  | readdir (p : Path)
deriving DecidableEq, Repr

/-- Lines written to standard output and standard error. -/
inductive Output where
  | rm (p : Path) (days : Int)
  | keep (p : Path) (days : Int)
  | errRemove (e : Err)
  | errDir (e : Err)
  | errMain (e : Err)
  | fatal (e : Err)
deriving DecidableEq, Repr

/-- The state of the machine the program runs on. -/
structure World where
  fs : List (Path × Node)
  clock : Nat → Reading
  tick : Nat
  calls : List Call
  out : List Output

/-- The two process-wide flags `verbose` and `dryrun`. -/
structure Flags where
  verbose : Bool
  dryrun : Bool
deriving DecidableEq, Repr

/-- The node stored at a path, if the path exists. -/
def lookup (fs : List (Path × Node)) (p : Path) : Option Node :=
  match fs with
  | [] => none
  | (q, n) :: rest => if q = p then some n else lookup rest p

/-- Replace the attribute of every node stored at `p`. -/
def setAttr (fs : List (Path × Node)) (p : Path) (v : String) : List (Path × Node) :=
  fs.map fun e => if e.1 = p then (e.1, { e.2 with attr := some v }) else e

/-- The names listed in directory `p`: the last component of every entry that
is a direct child of `p`, in storage order. -/
def childNames (fs : List (Path × Node)) (p : Path) : List String :=
  fs.filterMap fun e =>
    match e.1.getLast? with
    | some name => if e.1.dropLast = p then some name else none
    | none => none

/-- The name of the attribute, `xattrKey`. -/
def xattrKey : String := "user.com.ath0.tm.date"

/-- The text of a path. -/
def pathString (p : Path) : String := "/".intercalate p

/-- The message of `ENOENT`. -/
def errNotExist : Err := "no such file or directory"

/-- The error `xattr.Getxattr` answers for an entry without the attribute:
`ENODATA`, wrapped with the operation, the path and the attribute name. -/
def errNoData (p : Path) : Err :=
  "xattr.getxattr " ++ pathString p ++ " " ++ xattrKey ++ ": no data available"

/-- The message of `ENOTEMPTY`. -/
def errNotEmpty : Err := "directory not empty"

/-- The message of `ENOTDIR`. -/
def errNotDir : Err := "not a directory"

/-- The machine after a system call has been issued. -/
def record (c : Call) (w : World) : World := { w with calls := w.calls ++ [c] }

/-- The machine after a line has been written. -/
def emit (o : Output) (w : World) : World := { w with out := w.out ++ [o] }

/-- The `time.Time` value `time.Now` builds from a clock reading. -/
def Reading.toTime (r : Reading) : Time :=
  ⟨unixToInternal * Second + r.unixNano, some r.mono⟩

/-- The world after one more clock reading has been taken. -/
def advance (w : World) : World := { w with tick := w.tick + 1 }

/-- Go's `time.Now()`: the next clock reading. -/
def timeNow (w : World) : Time × World := ((w.clock w.tick).toTime, advance w)

/-- Go's `time.Since(t)`, that is `time.Now().Sub(t)`. -/
def timeSince (t : Time) (w : World) : Int × World :=
  let (n, w1) := timeNow w
  (n.Sub t, w1)

/-- The call `os.Stat(p)` followed by `Mode().IsDir()`. -/
def osStat (p : Path) (w : World) : Except Err Bool × World :=
  let w1 := record (.stat p) w
  match lookup w.fs p with
  | none => (.error errNotExist, w1)
  | some n =>
    match n.statErr with
    | some e => (.error e, w1)
    | none => (.ok n.isDir, w1)

/-- The call `xattr.Getxattr(p, xattrKey)`; an entry without the attribute answers
`ENODATA`, whose message is "no data available". -/
def Getxattr (p : Path) (w : World) : Except Err String × World :=
  let w1 := record (.getxattr p) w
  match lookup w.fs p with
  | none => (.error errNotExist, w1)
  | some n =>
    match n.getErr with
    | some e => (.error e, w1)
    | none =>
      match n.attr with
      | none => (.error (errNoData p), w1)
      | some v => (.ok v, w1)

/-- The call `xattr.Setxattr(p, xattrKey, v)`. -/
def Setxattr (p : Path) (v : String) (w : World) : Option Err × World :=
  let w1 := record (.setxattr p v) w
  match lookup w.fs p with
  | none => (some errNotExist, w1)
  | some n =>
    match n.setErr with
    | some e => (some e, w1)
    | none => (none, { w1 with fs := setAttr w.fs p v })

/-- The call `os.Remove(p)`: removes a file or an empty directory. -/
def osRemove (p : Path) (w : World) : Option Err × World :=
  let w1 := record (.remove p) w
  match lookup w.fs p with
  | none => (some errNotExist, w1)
  | some n =>
    match n.rmErr with
    | some e => (some e, w1)
    | none =>
      if n.isDir && !(childNames w.fs p).isEmpty then (some errNotEmpty, w1)
      else (none, { w1 with fs := w.fs.filter fun e => !decide (e.1 = p) })

/-- The error of the first entry at or below `p`, in storage order, that the
system refuses to delete. -/
def firstRmErr (fs : List (Path × Node)) (p : Path) : Option Err :=
  match fs with
  | [] => none
  | (q, n) :: rest =>
    if p.isPrefixOf q then
      match n.rmErr with
      | some e => some e
      | none => firstRmErr rest p
    else firstRmErr rest p

/-- Some entry at or below `q` cannot be deleted, so that `q` cannot be deleted
either. -/
def blocked (fs : List (Path × Node)) (q : Path) : Bool := (firstRmErr fs q).isSome

/-- The call `os.RemoveAll(p)`.  A path that does not exist is not an error.
Otherwise everything at or below `p` that can be deleted is deleted; what stays
are the entries the system refuses to delete and the directories on the way
from `p` down to them, and the call then returns the error of the first such
entry.  A failed call may thus have deleted part of the subtree.  Whatever keeps
`os.RemoveAll` from deleting an entry, a directory it cannot list included, is
told by the `rmErr` of the entries that stay. -/
def osRemoveAll (p : Path) (w : World) : Option Err × World :=
  let w1 := record (.removeAll p) w
  match lookup w.fs p with
  | none => (none, w1)
  | some _ =>
    (firstRmErr w.fs p,
      { w1 with fs := w.fs.filter fun e => !p.isPrefixOf e.1 || blocked w.fs e.1 })

/-- The calls `os.Open(p)` and `Readdirnames(-1)`, with the deferred `Close`. -/
def osReaddirnames (p : Path) (w : World) : Except Err (List String) × World :=
  let w1 := record (.readdir p) w
  match lookup w.fs p with
  | none => (.error errNotExist, w1)
  | some n =>
    match n.readErr with
    | some e => (.error e, w1)
    | none => if n.isDir then (.ok (childNames w.fs p), w1) else (.error errNotDir, w1)

/-! ## The program -/

/-- The cutset `whitespace`: tab, newline, NUL and space. -/
def whitespace : List Char := ['\t', '\n', '\x00', ' ']

/-- Go's `strings.Trim(s, whitespace)`. -/
def trim (s : String) : String :=
  ⟨((s.data.dropWhile fun c => whitespace.contains c).reverse.dropWhile
      fun c => whitespace.contains c).reverse⟩

/-- Go's `strings.HasSuffix`. -/
def hasSuffix (s suffix : String) : Bool := suffix.data.isSuffixOf s.data

/-- The function `getcrtime` (main.go, lines 23-39): the stored date of an
entry, the zero time without error when the attribute is absent, the zero time
with the error when the read or the parse fails. -/
def getcrtime (c : Codec) (fname : Path) (w : World) : (Time × Option Err) × World :=
  match Getxattr fname w with
  | (.error err, w1) =>
    if hasSuffix err "no data available" then ((Time.zero, none), w1)
    else ((Time.zero, some err), w1)
  | (.ok xdt, w1) =>
    let dts := trim xdt
    match c.parse dts with
    | .error err => ((Time.zero, some err), w1)
    | .ok dt => ((⟨dt, none⟩, none), w1)

/-- The function `setcrtime` (lines 41-45): formats the time and writes it to
the attribute. -/
def setcrtime (c : Codec) (fname : Path) (timestamp : Time) (w : World) : Option Err × World :=
  let dts := c.format timestamp.wall
  Setxattr fname dts w

/-- The function `getsetcrtime` (lines 47-57).  The test `t.IsZero()` comes
before any look at `err`; in its branch `t` becomes a new clock reading while
the value written is the argument `timestamp`. -/
def getsetcrtime (c : Codec) (fname : Path) (timestamp : Time) (w : World) :
    (Time × Option Err) × World :=
  match getcrtime c fname w with
  | ((t, err), w1) =>
    if t.IsZero then
      match timeNow w1 with
      | (t2, w2) =>
        match setcrtime c fname timestamp w2 with
        | (some err2, w3) => ((t2, some err2), w3)
        | (none, w3) => ((t2, err), w3)
    else ((t, err), w1)

/-- The day count printed by `ageString`: `d/time.Hour/24`, truncating. -/
def ageDays (d : Int) : Int := (d.tdiv Hour).tdiv 24

/-- The function `processFile` (lines 74-101).  The argument `time.Now()` of
`getsetcrtime` is evaluated first; the error of the delete call is printed and
not returned. -/
def processFile (c : Codec) (fl : Flags) (fname : Path) (dur : Int) (isdir : Bool)
    (w : World) : Option Err × World :=
  match timeNow w with
  | (now, w0) =>
    match getsetcrtime c fname now w0 with
    | ((_, some err), w1) => (some err, w1)
    | ((t, none), w1) =>
      match timeSince t w1 with
      | (age, w2) =>
        if age > dur then
          let w3 := if fl.verbose then emit (.rm fname (ageDays age)) w2 else w2
          if !fl.dryrun then
            match (if isdir then osRemoveAll fname w3 else osRemove fname w3) with
            | (some err2, w4) => (none, emit (.errRemove err2) w4)
            | (none, w4) => (none, w4)
          else (none, w3)
        else
          (none, if fl.verbose then emit (.keep fname (ageDays age)) w2 else w2)

/-- Go's `filepath.Join(fname, file)` for a directory and one of its names. -/
def join (fname : Path) (file : String) : Path := fname ++ [file]

mutual

/-- The function `process` (lines 59-68).  The parameter `override` is handed on
to `processDir` and never used. -/
def process (c : Codec) (fl : Flags) (fname : Path) (dur : Int) (override : Time)
    (depth : Int) (w : World) : Option Err × World :=
  match osStat fname w with
  | (.error err, w1) => (some err, w1)
  | (.ok isDir, w1) =>
    if isDir then processDir c fl fname dur override depth w1
    else processFile c fl fname dur false w1
termination_by ((1 - depth).toNat, 1, 0)
decreasing_by all_goals simp_wf; all_goals simp [Prod.lex_def]

/-- The function `processDir` (lines 103-129).  The program reaches it with
depth 0 and 1 only; the model follows the source for every depth. -/
def processDir (c : Codec) (fl : Flags) (fname : Path) (dur : Int) (override : Time)
    (depth : Int) (w : World) : Option Err × World :=
  if depth > 0 then
    -- Treat like a file
    processFile c fl fname dur true w
  else
    -- Else recurse
    match osReaddirnames fname w with
    | (.error err, w1) => (some err, w1)
    | (.ok files, w1) => processChildren c fl fname dur override depth files none w1
termination_by ((1 - depth).toNat, 0, 0)
decreasing_by all_goals simp_wf; all_goals simp [Prod.lex_def]; all_goals omega

/-- The loop `for _, file := range files` of `processDir`, with the running
value of `cerr`. -/
def processChildren (c : Codec) (fl : Flags) (fname : Path) (dur : Int) (override : Time)
    (depth : Int) (files : List String) (cerr : Option Err) (w : World) : Option Err × World :=
  match files with
  | [] => (cerr, w)
  | file :: rest =>
    match process c fl (join fname file) dur override (depth + 1) w with
    | (some err2, w1) =>
      processChildren c fl fname dur override depth rest (some err2) (emit (.errDir err2) w1)
    | (none, w1) => processChildren c fl fname dur override depth rest cerr w1
termination_by ((1 - (depth + 1)).toNat, 2, files.length)
decreasing_by all_goals simp_wf; all_goals simp [Prod.lex_def]

end

/-- The retention period `time.Duration(d) * 24 * time.Hour` of `main`, in
signed 64-bit arithmetic. -/
def threshold (d : Int) : Int := wrap64 (wrap64 (wrap64 d * 24) * Hour)

/-- The loop over the command line arguments of `main`. -/
def mainLoop (c : Codec) (fl : Flags) (dur : Int) (args : List Path) (w : World) : World :=
  match args with
  | [] => w
  | fname :: rest =>
    match process c fl fname dur Time.zero 0 w with
    | (some err, w1) => mainLoop c fl dur rest (emit (.errMain err) w1)
    | (none, w1) => mainLoop c fl dur rest w1

/-- The body of `main` after flag parsing; `days` is the result of
`strconv.Atoi` on the `-days` flag. -/
def main (c : Codec) (fl : Flags) (days : Except Err Int) (args : List Path) (w : World) :
    World :=
  match days with
  | .error err => emit (.fatal err) w
  | .ok d => mainLoop c fl (threshold d) args w

/-! ## A reference codec

The UTC form `YYYY-MM-DDTHH:MM:SSZ` of RFC 3339, on the proleptic Gregorian
calendar.  It serves to evaluate the program on concrete attribute values. -/

/-- The value of a decimal digit. -/
def digit? (c : Char) : Option Nat :=
  if '0' ≤ c ∧ c ≤ '9' then some (c.toNat - '0'.toNat) else none

/-- The value of a run of decimal digits. -/
def digits? (cs : List Char) : Option Nat :=
  cs.foldl (fun acc c => match acc, digit? c with
    | some a, some d => some (10 * a + d)
    | _, _ => none) (some 0)

/-- The decimal digit of a number below ten. -/
def digitChar (n : Nat) : Char := Char.ofNat ('0'.toNat + n % 10)

/-- Two decimal digits. -/
def pad2 (n : Nat) : List Char := [digitChar (n / 10), digitChar n]

/-- Four decimal digits. -/
def pad4 (n : Nat) : List Char :=
  [digitChar (n / 1000), digitChar (n / 100), digitChar (n / 10), digitChar n]

/-- Leap years of the Gregorian calendar. -/
def isLeap (y : Nat) : Bool := y % 4 == 0 && (y % 100 != 0 || y % 400 == 0)

/-- The number of days of a month. -/
def daysIn (y m : Nat) : Nat :=
  if m = 2 then (if isLeap y then 29 else 28)
  else if m = 4 ∨ m = 6 ∨ m = 9 ∨ m = 11 then 30 else 31

/-- Days from 0001-01-01 to the given civil date. -/
def daysFromCivil (y m d : Nat) : Int :=
  let y1 : Int := if m ≤ 2 then (y : Int) - 1 else y
  let era := y1 / 400
  let yoe := y1 - era * 400
  let mp : Int := if m > 2 then (m : Int) - 3 else (m : Int) + 9
  let doy := (153 * mp + 2) / 5 + d - 1
  let doe := yoe * 365 + yoe / 4 - yoe / 100 + doy
  era * 146097 + doe - 306

/-- The civil date that lies the given number of days after 0001-01-01. -/
def civilFromDays (n : Int) : Int × Nat × Nat :=
  let z := n + 306
  let era := z / 146097
  let doe := z - era * 146097
  let yoe := (doe - doe / 1460 + doe / 36524 - doe / 146096) / 365
  let doy := doe - (365 * yoe + yoe / 4 - yoe / 100)
  let mp := (5 * doy + 2) / 153
  let d := doy - (153 * mp + 2) / 5 + 1
  let m := if mp < 10 then mp + 3 else mp - 9
  (yoe + era * 400 + (if m ≤ 2 then 1 else 0), m.toNat, d.toNat)

/-- The beginning of the message of the `*time.ParseError` that `time.Parse`
returns for the value `s`. -/
def parseError (s : String) : Err :=
  "parsing time \"" ++ s ++ "\" as \"2006-01-02T15:04:05Z07:00\""

/-- Parsing of `YYYY-MM-DDTHH:MM:SSZ`, with the range checks of `time.Parse`;
every other text is rejected. -/
def rfc3339Parse (s : String) : Except Err Int :=
  match s.data with
  | [y1, y2, y3, y4, '-', m1, m2, '-', d1, d2, 'T', h1, h2, ':', n1, n2, ':', s1, s2, 'Z'] =>
    match digits? [y1, y2, y3, y4], digits? [m1, m2], digits? [d1, d2],
        digits? [h1, h2], digits? [n1, n2], digits? [s1, s2] with
    | some y, some m, some d, some h, some n, some sec =>
      if 1 ≤ m ∧ m ≤ 12 ∧ 1 ≤ d ∧ d ≤ daysIn y m ∧ h < 24 ∧ n < 60 ∧ sec < 60 then
        .ok ((((daysFromCivil y m d * 24 + h) * 60 + n) * 60 + sec) * Second)
      else .error (parseError s)
    | _, _, _, _, _, _ => .error (parseError s)
  | _ => .error (parseError s)

/-- Formatting in UTC, to the second. -/
def rfc3339Format (wall : Int) : String :=
  let secs := wall / Second
  let days := secs / 86400
  let rem := (secs % 86400).toNat
  match civilFromDays days with
  | (y, m, d) =>
    ⟨pad4 y.toNat ++ ['-'] ++ pad2 m ++ ['-'] ++ pad2 d ++ ['T'] ++ pad2 (rem / 3600) ++ [':']
      ++ pad2 (rem / 60 % 60) ++ [':'] ++ pad2 (rem % 60) ++ ['Z']⟩

/-- The reference codec. -/
def rfc3339 : Codec := ⟨rfc3339Parse, rfc3339Format⟩

/-! ## Vocabulary of the statements -/

/-- The wall instant of the `k`-th clock reading. -/
def wallAt (w : World) (k : Nat) : Int := (w.clock k).toTime.wall

/-- The monotonic value of the `k`-th clock reading. -/
def monoAt (w : World) (k : Nat) : Int := (w.clock k).mono

/-- The path a system call acts on. -/
def Call.path : Call → Path
  | .stat p => p
  | .getxattr p => p
  | .setxattr p _ => p
  | .remove p => p
  | .removeAll p => p
  | .readdir p => p

/-- The system call is a directory listing. -/
def Call.isReaddir : Call → Bool
  | .readdir _ => true
  | _ => false

/-- The system call is a `stat`, the first call `process` makes on a path. -/
def Call.isStat : Call → Bool
  | .stat _ => true
  | _ => false

/-- The system call acts on the entry `p` itself and neither lists nor stats it:
what the evaluation of a leaf may do. -/
def Call.leafOn (p : Path) (e : Call) : Prop :=
  e.path = p ∧ e.isReaddir = false ∧ e.isStat = false

/-- One round of the walk over the names of a directory, as the specification
words it: `process` is called on the child with depth 1; a failure is reported
and becomes the error to return, a success leaves that error as it is. -/
def childStep (c : Codec) (fl : Flags) (fname : Path) (dur : Int) (override : Time)
    (acc : Option Err × World) (file : String) : Option Err × World :=
  match process c fl (join fname file) dur override 1 acc.2 with
  | (some err2, w1) => (some err2, emit (.errDir err2) w1)
  | (none, w1) => (acc.1, w1)

/-- The outcomes of `process` on the children of a directory, each child being
processed at depth 1 on the machine its predecessors left. -/
def childResults (c : Codec) (fl : Flags) (fname : Path) (dur : Int) (override : Time) :
    List String → World → List (Option Err)
  | [], _ => []
  | file :: rest, w =>
    match process c fl (join fname file) dur override 1 w with
    | (some err2, w1) =>
      some err2 :: childResults c fl fname dur override rest (emit (.errDir err2) w1)
    | (none, w1) => none :: childResults c fl fname dur override rest w1

/-- Two machines that agree on the clock and on the entry `p` itself.  They may
differ in every other entry, those below `p` included. -/
def SameEntry (p : Path) (w w' : World) : Prop :=
  w'.clock = w.clock ∧ w'.tick = w.tick ∧ lookup w'.fs p = lookup w.fs p

/-- Two machines that agree on the clock and on the entry `p`, and on which the
same system calls have been made since their call records read `b` and `b'`. -/
def SameRun (p : Path) (b b' : List Call) (w w' : World) : Prop :=
  SameEntry p w w' ∧ ∃ evs, w.calls = b ++ evs ∧ w'.calls = b' ++ evs

/-! ## Example machines -/

/-- A clock that reads 2026-11-04T12:00:00Z at its second reading and advances
by one microsecond per reading. -/
def clock2026 (k : Nat) : Reading := ⟨1793793599999999000 + 1000 * k, 5000 + 1000 * k⟩

/-- A machine holding the single file `f` with the given attribute value. -/
def oneFile (attr : Option String) : World :=
  ⟨[(["f"], { isDir := false, attr := attr })], clock2026, 0, [], []⟩

/-- Fourteen days, in nanoseconds. -/
def fourteenDays : Int := 1209600000000000

/-- A machine holding the single file `f` whose deletion the system refuses. -/
def stuckFile (attr : Option String) : World :=
  ⟨[(["f"], { isDir := false, attr := attr, rmErr := some "operation not permitted" })],
    clock2026, 0, [], []⟩

/-- A machine holding the single file `f` whose attribute the system refuses to
write. -/
def readOnlyFile (attr : Option String) : World :=
  ⟨[(["f"], { isDir := false, attr := attr, setErr := some "read-only file system" })],
    clock2026, 0, [], []⟩

/-- The error `xattr.Getxattr` answers on the file `f` when the read is denied. -/
def errDenied : Err := "xattr.getxattr f user.com.ath0.tm.date: permission denied"

/-- A machine holding the single file `f` whose attribute the system refuses to
read, while it lets it be written (a file of mode 0200, say). -/
def unreadable (attr : Option String) : World :=
  ⟨[(["f"], { isDir := false, attr := attr, getErr := some errDenied })], clock2026, 0, [], []⟩

/-- The file `f`, first seen on 2026-10-04T12:00:00Z, on a machine that refuses
to delete it. -/
def stuckOld : World := stuckFile (some "2026-10-04T12:00:00Z")

/-- The machine `stuckOld` after `processFile` has obtained the date of `f`. -/
def stuckOldRead : World :=
  (getsetcrtime rfc3339 ["f"] (timeNow stuckOld).1 (timeNow stuckOld).2).2

/-- The directory `d`, first seen on 2026-10-04T12:00:00Z, which holds the
files `a` and `b`; the system refuses to delete `b`. -/
def stuckDir : World :=
  ⟨[(["d"], { isDir := true, attr := some "2026-10-04T12:00:00Z" }),
    (["d", "a"], { isDir := false, attr := none }),
    (["d", "b"], { isDir := false, attr := none, rmErr := some "operation not permitted" })],
    clock2026, 0, [], []⟩

/-- The machine `stuckDir` after `processFile` has obtained the date of `d`. -/
def stuckDirRead : World :=
  (getsetcrtime rfc3339 ["d"] (timeNow stuckDir).1 (timeNow stuckDir).2).2

/-- The file `f`, first seen on 2026-11-04T11:00:00Z. -/
def recent : World := oneFile (some "2026-11-04T11:00:00Z")

/-- The machine `recent` after `processFile` has obtained the date of `f`. -/
def recentRead : World :=
  (getsetcrtime rfc3339 ["f"] (timeNow recent).1 (timeNow recent).2).2

/-- The scenario of the specification: the directory `cache` holds the file
`a.txt`, never seen before, and the directory `old`, first seen thirty-one days
before the run, which holds the file `x`, never seen before. -/
def cache : World :=
  ⟨[(["cache"], { isDir := true, attr := none }),
    (["cache", "a.txt"], { isDir := false, attr := none }),
    (["cache", "old"], { isDir := true, attr := some "2026-10-04T12:00:00Z" }),
    (["cache", "old", "x"], { isDir := false, attr := none })],
    clock2026, 0, [], []⟩

/-- The machine `cache` with other contents in `old`: two files, both seen
long ago. -/
def cacheOther : World :=
  ⟨[(["cache"], { isDir := true, attr := none }),
    (["cache", "a.txt"], { isDir := false, attr := none }),
    (["cache", "old"], { isDir := true, attr := some "2026-10-04T12:00:00Z" }),
    (["cache", "old", "y"], { isDir := false, attr := some "2020-01-01T00:00:00Z" }),
    (["cache", "old", "z"], { isDir := false, attr := some "2020-01-01T00:00:00Z" })],
    clock2026, 0, [], []⟩

/-- A directory `d` whose first and third entries carry attribute values that
are not dates, and whose second and fourth entries are a day old. -/
def mixed : World :=
  ⟨[(["d"], { isDir := true, attr := none }),
    (["d", "bad1"], { isDir := false, attr := some "not-a-date" }),
    (["d", "ok1"], { isDir := false, attr := some "2026-11-03T12:00:00Z" }),
    (["d", "bad2"], { isDir := false, attr := some "yesterday" }),
    (["d", "ok2"], { isDir := false, attr := some "2026-11-03T12:00:00Z" })],
    clock2026, 0, [], []⟩

/-! ## Theorems -/

/-! ### Basic facts about the system calls -/

@[simp] theorem record_fs (c : Call) (w : World) : (record c w).fs = w.fs := rfl
@[simp] theorem record_tick (c : Call) (w : World) : (record c w).tick = w.tick := rfl
@[simp] theorem record_clock (c : Call) (w : World) : (record c w).clock = w.clock := rfl
@[simp] theorem record_calls (c : Call) (w : World) : (record c w).calls = w.calls ++ [c] := rfl
@[simp] theorem record_out (c : Call) (w : World) : (record c w).out = w.out := rfl
@[simp] theorem emit_fs (o : Output) (w : World) : (emit o w).fs = w.fs := rfl
@[simp] theorem emit_tick (o : Output) (w : World) : (emit o w).tick = w.tick := rfl
@[simp] theorem emit_clock (o : Output) (w : World) : (emit o w).clock = w.clock := rfl
@[simp] theorem emit_calls (o : Output) (w : World) : (emit o w).calls = w.calls := rfl
@[simp] theorem emit_out (o : Output) (w : World) : (emit o w).out = w.out ++ [o] := rfl
@[simp] theorem advance_fs (w : World) : (advance w).fs = w.fs := rfl
@[simp] theorem advance_tick (w : World) : (advance w).tick = w.tick + 1 := rfl
@[simp] theorem advance_clock (w : World) : (advance w).clock = w.clock := rfl
@[simp] theorem advance_calls (w : World) : (advance w).calls = w.calls := rfl
@[simp] theorem advance_out (w : World) : (advance w).out = w.out := rfl

theorem timeNow_eq (w : World) :
    timeNow w = (⟨wallAt w w.tick, some (monoAt w w.tick)⟩, advance w) := rfl

theorem timeSince_eq (t : Time) (w : World) :
    timeSince t w = ((Time.mk (wallAt w w.tick) (some (monoAt w w.tick))).Sub t, advance w) := rfl

/-- The realtime clock never reads before the Unix epoch, which lies further
from the zero instant than any `time.Duration` can express. -/
theorem wallAt_pos (w : World) (k : Nat) : 2 ^ 63 < wallAt w k := by
  unfold wallAt Reading.toTime unixToInternal Second
  have h : (0 : Int) ≤ ((w.clock k).unixNano : Int) := Int.ofNat_nonneg _
  simp only
  omega

theorem clampDuration_le (x dur : Int) (hmin : minDuration ≤ dur) (h : x ≤ dur) :
    clampDuration x ≤ dur := by
  unfold clampDuration
  split_ifs <;> omega

theorem clampDuration_gt (x dur : Int) (hmax : dur < maxDuration) (hmin : minDuration ≤ dur)
    (h : dur < x) : dur < clampDuration x := by
  unfold clampDuration
  split_ifs <;> omega

/-- The retention period of `main` lies in the `time.Duration` range and is
never the largest duration: it is a multiple of 2 ^ 13 modulo 2 ^ 64. -/
theorem threshold_range (d : Int) : minDuration ≤ threshold d ∧ threshold d < maxDuration := by
  unfold threshold
  generalize wrap64 (wrap64 d * 24) = y
  unfold wrap64 minDuration maxDuration Hour
  omega

/-- Reading an attribute that holds a well-formed date. -/
theorem getcrtime_stored (c : Codec) (w : World) (fname : Path) (n : Node) (v : String)
    (t : Int) (hnode : lookup w.fs fname = some n) (hget : n.getErr = none)
    (hattr : n.attr = some v) (hparse : c.parse (trim v) = .ok t) :
    getcrtime c fname w = ((⟨t, none⟩, none), record (.getxattr fname) w) := by
  simp [getcrtime, Getxattr, hnode, hget, hattr, hparse]

/-- A well-formed date other than the zero instant is returned as it is. -/
theorem getsetcrtime_stored (c : Codec) (w : World) (fname : Path) (ts : Time) (n : Node)
    (v : String) (t : Int) (hnode : lookup w.fs fname = some n) (hget : n.getErr = none)
    (hattr : n.attr = some v) (hparse : c.parse (trim v) = .ok t) (ht : t ≠ 0) :
    getsetcrtime c fname ts w = ((⟨t, none⟩, none), record (.getxattr fname) w) := by
  simp [getsetcrtime, getcrtime_stored c w fname n v t hnode hget hattr hparse, Time.IsZero, ht]

/-! ### Retention of young entries -/

/-- Retention when the attribute can be read.  An entry whose attribute is read
without error and whose stored date has an age of at most the retention period
(equality included) is retained in both modes: `processFile` returns no error,
its only system call is the attribute read, so it deletes nothing and writes no
attribute, and the file system, the entry and its stored date with it, is
unchanged.  The age is the wall-clock time of the reading `time.Since` takes
less the stored instant, and the period is any `time.Duration`.  The zero
instant, which `getsetcrtime` takes for an absent date, is never that young:
the clock does not read before the Unix epoch. -/
theorem processFile_retains_young (c : Codec) (fl : Flags) (w : World) (fname : Path)
    (dur : Int) (isdir : Bool) (n : Node) (v : String) (t : Int)
    (hnode : lookup w.fs fname = some n) (hget : n.getErr = none) (hattr : n.attr = some v)
    (hparse : c.parse (trim v) = .ok t)
    (hdur : minDuration ≤ dur ∧ dur ≤ maxDuration)
    (hage : wallAt w (w.tick + 1) - t ≤ dur) :
    (processFile c fl fname dur isdir w).1 = none ∧
    (processFile c fl fname dur isdir w).2.calls = w.calls ++ [.getxattr fname] ∧
    (processFile c fl fname dur isdir w).2.fs = w.fs ∧
    lookup (processFile c fl fname dur isdir w).2.fs fname = some n := by
  have ht : t ≠ 0 := by
    intro h0
    have hp := wallAt_pos w (w.tick + 1)
    have hmax : maxDuration = 2 ^ 63 - 1 := rfl
    omega
  have hle : ¬ (clampDuration (wallAt w (w.tick + 1) - t) > dur) :=
    not_lt.mpr (clampDuration_le _ _ hdur.1 hage)
  have hgs := getsetcrtime_stored c (advance w) fname
    ⟨wallAt w w.tick, some (monoAt w w.tick)⟩ n v t hnode hget hattr hparse ht
  simp only [processFile, timeNow_eq, hgs, timeSince_eq, Time.Sub, record_tick, advance_tick,
    record_clock, advance_clock, wallAt, monoAt] at *
  simp only [hle, if_false]
  cases fl.verbose <;> simp [hnode]

/-- The file `f` was first seen on 2026-10-21T12:00:00Z and is processed at
2026-11-04T12:00:00Z with a retention period of fourteen days: its age equals
the period and it is kept. -/
theorem processFile_retains_young_witness :
    wallAt (oneFile (some "2026-10-21T12:00:00Z\n")) 1 - 63928180800000000000 = fourteenDays ∧
    (processFile rfc3339 ⟨true, false⟩ ["f"] fourteenDays false
      (oneFile (some "2026-10-21T12:00:00Z\n"))).1 = none ∧
    (processFile rfc3339 ⟨true, false⟩ ["f"] fourteenDays false
      (oneFile (some "2026-10-21T12:00:00Z\n"))).2.calls = [] ++ [.getxattr ["f"]] ∧
    (processFile rfc3339 ⟨true, false⟩ ["f"] fourteenDays false
      (oneFile (some "2026-10-21T12:00:00Z\n"))).2.fs = (oneFile (some "2026-10-21T12:00:00Z\n")).fs ∧
    lookup (processFile rfc3339 ⟨true, false⟩ ["f"] fourteenDays false
      (oneFile (some "2026-10-21T12:00:00Z\n"))).2.fs ["f"] =
      some { isDir := false, attr := some "2026-10-21T12:00:00Z\n" } :=
  ⟨by decide,
   processFile_retains_young rfc3339 ⟨true, false⟩ (oneFile (some "2026-10-21T12:00:00Z\n")) ["f"]
    fourteenDays false { isDir := false, attr := some "2026-10-21T12:00:00Z\n" }
    "2026-10-21T12:00:00Z\n" 63928180800000000000 (by decide) (by decide) (by decide) (by decide)
    (by decide) (by decide)⟩

/-! ### Removal of old entries -/

theorem lookup_filter_self (fs : List (Path × Node)) (p : Path) :
    lookup (fs.filter fun e => !decide (e.1 = p)) p = none := by
  induction fs with
  | nil => rfl
  | cons e rest ih =>
    obtain ⟨q, n⟩ := e
    by_cases h : q = p
    · simp [List.filter, h, ih]
    · simp [List.filter, h, lookup, ih]

theorem isPrefixOf_self (p : Path) : p.isPrefixOf p = true := by
  induction p with
  | nil => rfl
  | cons a rest ih => simp [List.isPrefixOf, ih]

/-- The outcome of `os.Remove` depends on the file system alone; when it
succeeds the path is gone. -/
theorem osRemove_spec (p : Path) (w w0 : World) (hfs : w.fs = w0.fs) :
    (osRemove p w).1 = (osRemove p w0).1 ∧
    (osRemove p w).2.calls = w.calls ++ [.remove p] ∧
    (osRemove p w).2.out = w.out ∧
    ((osRemove p w).1 = none → lookup (osRemove p w).2.fs p = none) ∧
    ((osRemove p w).1 ≠ none → (osRemove p w).2.fs = w.fs) := by
  unfold osRemove
  rw [hfs]
  cases lookup w0.fs p with
  | none => simp [hfs]
  | some n =>
    obtain ⟨isDir, attr, statErr, getErr, setErr, rmErr, readErr⟩ := n
    cases rmErr with
    | some e => simp [hfs]
    | none =>
      by_cases hne : (isDir && !(childNames w0.fs p).isEmpty) = true
      · simp only [hne, if_true]
        simp [hfs]
      · simp only [hne]
        exact ⟨rfl, rfl, rfl, fun _ => lookup_filter_self _ _, fun h => absurd rfl h⟩

theorem lookup_filter_none (keep : Path × Node → Bool) (fs : List (Path × Node)) (p : Path)
    (h : ∀ n, keep (p, n) = false) : lookup (fs.filter keep) p = none := by
  induction fs with
  | nil => rfl
  | cons e rest ih =>
    obtain ⟨q, n⟩ := e
    by_cases hq : q = p
    · subst hq
      rw [List.filter_cons, h n]
      exact ih
    · cases hk : keep (q, n)
      · rw [List.filter_cons, hk]
        exact ih
      · rw [List.filter_cons, hk]
        simp only [if_true, lookup, if_neg hq]
        exact ih

/-- The outcome of `os.RemoveAll` depends on the file system alone; when it
succeeds the path is gone. -/
theorem osRemoveAll_spec (p : Path) (w w0 : World) (hfs : w.fs = w0.fs) :
    (osRemoveAll p w).1 = (osRemoveAll p w0).1 ∧
    (osRemoveAll p w).2.calls = w.calls ++ [.removeAll p] ∧
    (osRemoveAll p w).2.out = w.out ∧
    ((osRemoveAll p w).1 = none → lookup (osRemoveAll p w).2.fs p = none) := by
  unfold osRemoveAll
  rw [hfs]
  cases hl : lookup w0.fs p with
  | none => exact ⟨rfl, rfl, rfl, fun _ => by simp [hfs, hl]⟩
  | some n =>
    refine ⟨rfl, rfl, rfl, fun h => ?_⟩
    simp only at h ⊢
    apply lookup_filter_none
    intro m
    simp [isPrefixOf_self, blocked, h]

/-- The run of `processFile` on an entry whose attribute holds a well-formed
date other than the zero instant. -/
theorem processFile_stored (c : Codec) (fl : Flags) (w : World) (fname : Path)
    (dur : Int) (isdir : Bool) (n : Node) (v : String) (t : Int)
    (hnode : lookup w.fs fname = some n) (hget : n.getErr = none) (hattr : n.attr = some v)
    (hparse : c.parse (trim v) = .ok t) (ht : t ≠ 0) :
    processFile c fl fname dur isdir w =
      if clampDuration (wallAt w (w.tick + 1) - t) > dur then
        if !fl.dryrun then
          match (if isdir then
              osRemoveAll fname (if fl.verbose then
                emit (.rm fname (ageDays (clampDuration (wallAt w (w.tick + 1) - t))))
                  (advance (record (.getxattr fname) (advance w)))
                else advance (record (.getxattr fname) (advance w)))
            else
              osRemove fname (if fl.verbose then
                emit (.rm fname (ageDays (clampDuration (wallAt w (w.tick + 1) - t))))
                  (advance (record (.getxattr fname) (advance w)))
                else advance (record (.getxattr fname) (advance w)))) with
          | (some err2, w4) => (none, emit (.errRemove err2) w4)
          | (none, w4) => (none, w4)
        else (none, if fl.verbose then
          emit (.rm fname (ageDays (clampDuration (wallAt w (w.tick + 1) - t))))
            (advance (record (.getxattr fname) (advance w)))
          else advance (record (.getxattr fname) (advance w)))
      else
        (none, if fl.verbose then
          emit (.keep fname (ageDays (clampDuration (wallAt w (w.tick + 1) - t))))
            (advance (record (.getxattr fname) (advance w)))
          else advance (record (.getxattr fname) (advance w))) := by
  have hgs := getsetcrtime_stored c (advance w) fname
    ⟨wallAt w w.tick, some (monoAt w w.tick)⟩ n v t hnode hget hattr hparse ht
  rw [processFile, timeNow_eq]
  simp only [hgs]
  simp only [timeSince_eq, Time.Sub, record_tick, advance_tick, record_clock,
    advance_clock, wallAt, monoAt]

/-- C1, amended. An entry whose attribute is read without error and whose
stored date is not the zero instant and is older than the retention period
computed by `main` is removed when `dryrun` is off and the delete call
succeeds: afterwards the path does not exist, and the calls made are the
attribute read and the delete.  When `dryrun` is on the entry and the whole
file system are left as they were. -/
theorem processFile_removes_old (c : Codec) (fl : Flags) (w : World) (fname : Path) (d : Int)
    (isdir : Bool) (n : Node) (v : String) (t : Int)
    (hnode : lookup w.fs fname = some n) (hget : n.getErr = none) (hattr : n.attr = some v)
    (hparse : c.parse (trim v) = .ok t) (ht : t ≠ 0)
    (hage : wallAt w (w.tick + 1) - t > threshold d)
    (hdel : fl.dryrun = false →
      (if isdir then osRemoveAll fname w else osRemove fname w).1 = none) :
    (processFile c fl fname (threshold d) isdir w).1 = none ∧
    (fl.dryrun = false →
      lookup (processFile c fl fname (threshold d) isdir w).2.fs fname = none ∧
      (processFile c fl fname (threshold d) isdir w).2.calls =
        w.calls ++ [.getxattr fname, if isdir then .removeAll fname else .remove fname]) ∧
    (fl.dryrun = true →
      lookup (processFile c fl fname (threshold d) isdir w).2.fs fname = some n ∧
      (processFile c fl fname (threshold d) isdir w).2.fs = w.fs ∧
      (processFile c fl fname (threshold d) isdir w).2.calls = w.calls ++ [.getxattr fname]) := by
  obtain ⟨hmin, hmax⟩ := threshold_range d
  have hgt := clampDuration_gt _ _ hmax hmin hage
  rw [processFile_stored c fl w fname (threshold d) isdir n v t hnode hget hattr hparse ht]
  rw [if_pos hgt]
  obtain ⟨verbose, dryrun⟩ := fl
  cases dryrun
  · have hd := hdel rfl
    simp only [Bool.not_false, if_true]
    generalize hw3 : (if verbose = true then
        emit (.rm fname (ageDays (clampDuration (wallAt w (w.tick + 1) - t))))
          (advance (record (.getxattr fname) (advance w)))
        else advance (record (.getxattr fname) (advance w))) = w3
    have hfs : w3.fs = w.fs := by subst hw3; cases verbose <;> rfl
    have hcalls : w3.calls = w.calls ++ [.getxattr fname] := by
      subst hw3; cases verbose <;> rfl
    cases isdir
    · obtain ⟨h1, h2, _, h4, _⟩ := osRemove_spec fname w3 w hfs
      simp only [Bool.false_eq_true, if_false] at hd ⊢
      rw [hd] at h1
      rcases hp : osRemove fname w3 with ⟨_ | e, w4⟩
      · rw [hp] at h2 h4
        simp only [hcalls, List.append_assoc, List.singleton_append] at h2
        simpa using ⟨h4 rfl, h2⟩
      · rw [hp] at h1
        simp at h1
    · obtain ⟨h1, h2, _, h4⟩ := osRemoveAll_spec fname w3 w hfs
      simp only [if_true] at hd ⊢
      rw [hd] at h1
      rcases hp : osRemoveAll fname w3 with ⟨_ | e, w4⟩
      · rw [hp] at h2 h4
        simp only [hcalls, List.append_assoc, List.singleton_append] at h2
        simpa using ⟨h4 rfl, h2⟩
      · rw [hp] at h1
        simp at h1
  · cases verbose <;> simp [hnode]

/-- The file `f`, first seen on 2026-10-04T12:00:00Z, is processed on
2026-11-04 with a retention period of fourteen days: it is removed, and it is
kept when `dryrun` is on. -/
theorem processFile_removes_old_witness :
    wallAt (oneFile (some "2026-10-04T12:00:00Z")) 1 - 63926712000000000000 > threshold 14 ∧
    lookup (processFile rfc3339 ⟨false, false⟩ ["f"] (threshold 14) false
      (oneFile (some "2026-10-04T12:00:00Z"))).2.fs ["f"] = none ∧
    lookup (processFile rfc3339 ⟨false, true⟩ ["f"] (threshold 14) false
      (oneFile (some "2026-10-04T12:00:00Z"))).2.fs ["f"] =
      some { isDir := false, attr := some "2026-10-04T12:00:00Z" } :=
  ⟨by decide,
   ((processFile_removes_old rfc3339 ⟨false, false⟩ (oneFile (some "2026-10-04T12:00:00Z")) ["f"]
      14 false { isDir := false, attr := some "2026-10-04T12:00:00Z" } "2026-10-04T12:00:00Z"
      63926712000000000000 (by decide) (by decide) (by decide) (by decide) (by decide)
      (by decide) (by decide)).2.1 rfl).1,
   ((processFile_removes_old rfc3339 ⟨false, true⟩ (oneFile (some "2026-10-04T12:00:00Z")) ["f"]
      14 false { isDir := false, attr := some "2026-10-04T12:00:00Z" } "2026-10-04T12:00:00Z"
      63926712000000000000 (by decide) (by decide) (by decide) (by decide) (by decide)
      (by decide) (by decide)).2.2 rfl).1⟩

/-- C1 fails as stated.  A stored date of 0001-01-01T00:00:00Z is older than
fourteen days, yet with `dryrun` off the file is kept and its attribute is
overwritten with the current date; a file whose deletion the system refuses
is still there after the run; and a file a month old whose attribute the system
refuses to read is kept as well, no delete call being made. -/
theorem processFile_zero_date_kept :
    rfc3339.parse (trim "0001-01-01T00:00:00Z") = .ok 0 ∧
    wallAt (oneFile (some "0001-01-01T00:00:00Z")) 1 - 0 > threshold 14 ∧
    (processFile rfc3339 ⟨false, false⟩ ["f"] (threshold 14) false
      (oneFile (some "0001-01-01T00:00:00Z"))).2.calls =
      [.getxattr ["f"], .setxattr ["f"] "2026-11-04T11:59:59Z"] ∧
    lookup (processFile rfc3339 ⟨false, false⟩ ["f"] (threshold 14) false
      (oneFile (some "0001-01-01T00:00:00Z"))).2.fs ["f"] =
      some { isDir := false, attr := some "2026-11-04T11:59:59Z" } ∧
    rfc3339.parse (trim "2026-10-04T12:00:00Z") = .ok 63926712000000000000 ∧
    wallAt (stuckFile (some "2026-10-04T12:00:00Z")) 1 - 63926712000000000000 > threshold 14 ∧
    (processFile rfc3339 ⟨false, false⟩ ["f"] (threshold 14) false
      (stuckFile (some "2026-10-04T12:00:00Z"))).2.calls = [.getxattr ["f"], .remove ["f"]] ∧
    (lookup (processFile rfc3339 ⟨false, false⟩ ["f"] (threshold 14) false
      (stuckFile (some "2026-10-04T12:00:00Z"))).2.fs ["f"]).isSome = true ∧
    wallAt (unreadable (some "2026-10-04T12:00:00Z")) 1 - 63926712000000000000 > threshold 14 ∧
    (processFile rfc3339 ⟨false, false⟩ ["f"] (threshold 14) false
      (unreadable (some "2026-10-04T12:00:00Z"))).2.calls =
      [.getxattr ["f"], .setxattr ["f"] "2026-11-04T11:59:59Z"] ∧
    (lookup (processFile rfc3339 ⟨false, false⟩ ["f"] (threshold 14) false
      (unreadable (some "2026-10-04T12:00:00Z"))).2.fs ["f"]).isSome = true := by
  decide

/-! ### First-seen initialisation -/

theorem lookup_setAttr (fs : List (Path × Node)) (p : Path) (v : String) (n : Node)
    (h : lookup fs p = some n) : lookup (setAttr fs p v) p = some { n with attr := some v } := by
  induction fs with
  | nil => simp [lookup] at h
  | cons e rest ih =>
    obtain ⟨q, m⟩ := e
    have hcons : setAttr ((q, m) :: rest) p v =
        (if q = p then (q, { m with attr := some v }) else (q, m)) :: setAttr rest p v := rfl
    rw [hcons]
    by_cases hq : q = p
    · rw [if_pos hq]
      simp only [lookup, if_pos hq, Option.some.injEq] at h ⊢
      rw [h]
    · rw [if_neg hq]
      simp only [lookup, if_neg hq] at h ⊢
      exact ih h

/-- Reading the attribute of an entry that has none: the zero time, no error. -/
theorem getcrtime_absent (c : Codec) (w : World) (fname : Path) (n : Node)
    (hnode : lookup w.fs fname = some n) (hget : n.getErr = none) (hattr : n.attr = none) :
    getcrtime c fname w = ((Time.zero, none), record (.getxattr fname) w) := by
  have hs : hasSuffix (errNoData fname) "no data available" = true := by
    unfold hasSuffix errNoData
    rw [List.isSuffixOf_iff_suffix]
    exact ⟨("xattr.getxattr " ++ pathString fname ++ " " ++ xattrKey).data ++ [':', ' '], by
      simp only [String.data_append, List.append_assoc]
      rfl⟩
  simp [getcrtime, Getxattr, hnode, hget, hattr, hs]

/-- Reading an attribute whose value is not a date: the zero time and the
parse error. -/
theorem getcrtime_malformed (c : Codec) (w : World) (fname : Path) (n : Node) (v : String)
    (e : Err) (hnode : lookup w.fs fname = some n) (hget : n.getErr = none)
    (hattr : n.attr = some v) (hparse : c.parse (trim v) = .error e) :
    getcrtime c fname w = ((Time.zero, some e), record (.getxattr fname) w) := by
  simp [getcrtime, Getxattr, hnode, hget, hattr, hparse]

/-- Whenever the read yields the zero time, with or without an error,
`getsetcrtime` reads the clock, writes `timestamp` and, the write succeeding,
returns the clock reading together with the error of the read. -/
theorem getsetcrtime_zero (c : Codec) (w w1 : World) (fname : Path) (ts : Time) (n : Node)
    (err : Option Err) (hread : getcrtime c fname w = ((Time.zero, err), w1))
    (hnode : lookup w1.fs fname = some n) (hset : n.setErr = none) :
    getsetcrtime c fname ts w =
      (((w1.clock w1.tick).toTime, err),
        { record (.setxattr fname (c.format ts.wall)) (advance w1) with
          fs := setAttr w1.fs fname (c.format ts.wall) }) := by
  have hz : Time.zero.IsZero = true := rfl
  simp [getsetcrtime, hread, hz, timeNow, setcrtime, Setxattr, hnode, hset]

/-- The same when the write fails: the error of the write is returned and the
attribute is left as it was. -/
theorem getsetcrtime_zero_write_fails (c : Codec) (w w1 : World) (fname : Path) (ts : Time)
    (n : Node) (err : Option Err) (e2 : Err)
    (hread : getcrtime c fname w = ((Time.zero, err), w1))
    (hnode : lookup w1.fs fname = some n) (hset : n.setErr = some e2) :
    getsetcrtime c fname ts w =
      (((w1.clock w1.tick).toTime, some e2),
        record (.setxattr fname (c.format ts.wall)) (advance w1)) := by
  have hz : Time.zero.IsZero = true := rfl
  simp [getsetcrtime, hread, hz, timeNow, setcrtime, Setxattr, hnode, hset]

/-- First visit of an entry without attribute. -/
theorem getsetcrtime_fresh (c : Codec) (w : World) (fname : Path) (ts : Time) (n : Node)
    (hnode : lookup w.fs fname = some n) (hget : n.getErr = none) (hattr : n.attr = none)
    (hset : n.setErr = none) :
    getsetcrtime c fname ts w =
      (((w.clock w.tick).toTime, none),
        { record (.setxattr fname (c.format ts.wall)) (advance (record (.getxattr fname) w)) with
          fs := setAttr w.fs fname (c.format ts.wall) }) :=
  getsetcrtime_zero c w _ fname ts n none (getcrtime_absent c w fname n hnode hget hattr)
    hnode hset

/-- The run of `processFile` on an entry without attribute: the date written is
the clock reading taken by `processFile`, the age is measured on the monotonic
clock from the later reading taken inside `getsetcrtime`. -/
theorem processFile_fresh (c : Codec) (fl : Flags) (w : World) (fname : Path) (dur : Int)
    (isdir : Bool) (n : Node) (hnode : lookup w.fs fname = some n) (hget : n.getErr = none)
    (hattr : n.attr = none) (hset : n.setErr = none)
    (hkeep : ¬ clampDuration (monoAt w (w.tick + 2) - monoAt w (w.tick + 1)) > dur) :
    (processFile c fl fname dur isdir w).1 = none ∧
    (processFile c fl fname dur isdir w).2.calls =
      w.calls ++ [.getxattr fname, .setxattr fname (c.format (wallAt w w.tick))] ∧
    (processFile c fl fname dur isdir w).2.fs = setAttr w.fs fname (c.format (wallAt w w.tick)) := by
  have hgs := getsetcrtime_fresh c (advance w) fname ⟨wallAt w w.tick, some (monoAt w w.tick)⟩
    n hnode hget hattr hset
  rw [processFile, timeNow_eq]
  simp only [hgs]
  simp only [timeSince_eq, Time.Sub, Reading.toTime, record_tick, advance_tick, record_clock,
    advance_clock, wallAt, monoAt] at hkeep ⊢
  rw [if_neg hkeep]
  cases fl.verbose <;> simp

/-- C4, amended. For an entry without attribute on which the attribute write
succeeds, and a retention period that is not smaller than the time the
monotonic clock advances between the clock reading of `getsetcrtime` and the
age reading of `processFile`, one `processFile` call stores the RFC 3339 text of
the wall-clock time read at the start of the call and makes no delete call:
its system calls are the attribute read and the attribute write. -/
theorem processFile_initialises_fresh (c : Codec) (fl : Flags) (w : World) (fname : Path)
    (dur : Int) (isdir : Bool) (n : Node) (hnode : lookup w.fs fname = some n)
    (hget : n.getErr = none) (hattr : n.attr = none) (hset : n.setErr = none)
    (hmin : minDuration ≤ dur)
    (helapsed : monoAt w (w.tick + 2) - monoAt w (w.tick + 1) ≤ dur) :
    (processFile c fl fname dur isdir w).1 = none ∧
    (processFile c fl fname dur isdir w).2.calls =
      w.calls ++ [.getxattr fname, .setxattr fname (c.format (wallAt w w.tick))] ∧
    lookup (processFile c fl fname dur isdir w).2.fs fname =
      some { n with attr := some (c.format (wallAt w w.tick)) } := by
  obtain ⟨h1, h2, h3⟩ := processFile_fresh c fl w fname dur isdir n hnode hget hattr hset
    (not_lt.mpr (clampDuration_le _ _ hmin helapsed))
  exact ⟨h1, h2, by rw [h3]; exact lookup_setAttr _ _ _ _ hnode⟩

/-- A file without attribute is processed at 2026-11-04T11:59:59Z with a
retention period of fourteen days: the date is stored and the file is kept. -/
theorem processFile_initialises_fresh_witness :
    monoAt (oneFile none) 2 - monoAt (oneFile none) 1 ≤ fourteenDays ∧
    (processFile rfc3339 ⟨false, false⟩ ["f"] fourteenDays false (oneFile none)).1 = none ∧
    (processFile rfc3339 ⟨false, false⟩ ["f"] fourteenDays false (oneFile none)).2.calls =
      [] ++ [.getxattr ["f"], .setxattr ["f"] (rfc3339.format (wallAt (oneFile none) 0))] ∧
    lookup (processFile rfc3339 ⟨false, false⟩ ["f"] fourteenDays false (oneFile none)).2.fs ["f"] =
      some { isDir := false, attr := some (rfc3339.format (wallAt (oneFile none) 0)) } :=
  ⟨by decide,
   processFile_initialises_fresh rfc3339 ⟨false, false⟩ (oneFile none) ["f"] fourteenDays false
    { isDir := false, attr := none } (by decide) (by decide) (by decide) (by decide) (by decide)
    (by decide)⟩

/-- C4 fails as stated.  With `-days 0` and a clock that advances by a
microsecond per reading, and with `-days -1`, the file seen for the first time
is deleted by the very call that stores its date; and when the system refuses
the attribute write nothing is stored and the call returns the error. -/
theorem processFile_fresh_deleted :
    threshold 0 = 0 ∧
    (processFile rfc3339 ⟨false, false⟩ ["f"] (threshold 0) false (oneFile none)).2.calls =
      [.getxattr ["f"], .setxattr ["f"] "2026-11-04T11:59:59Z", .remove ["f"]] ∧
    lookup (processFile rfc3339 ⟨false, false⟩ ["f"] (threshold 0) false (oneFile none)).2.fs
      ["f"] = none ∧
    (processFile rfc3339 ⟨false, false⟩ ["f"] (threshold (-1)) false (oneFile none)).2.calls =
      [.getxattr ["f"], .setxattr ["f"] "2026-11-04T11:59:59Z", .remove ["f"]] ∧
    (processFile rfc3339 ⟨false, false⟩ ["f"] (threshold 14) false (readOnlyFile none)).1 =
      some "read-only file system" ∧
    lookup (processFile rfc3339 ⟨false, false⟩ ["f"] (threshold 14) false (readOnlyFile none)).2.fs
      ["f"] = some { isDir := false, attr := none, setErr := some "read-only file system" } := by
  decide

/-! ### Malformed attribute values -/

/-- The run of `processFile` on an entry whose attribute value is not a date:
the parse error is returned and nothing is deleted, but the attribute is written
all the same, because `getsetcrtime` tests `t.IsZero()` without looking at the
error. -/
theorem processFile_malformed (c : Codec) (fl : Flags) (w : World) (fname : Path) (dur : Int)
    (isdir : Bool) (n : Node) (v : String) (e : Err) (hnode : lookup w.fs fname = some n)
    (hget : n.getErr = none) (hattr : n.attr = some v) (hset : n.setErr = none)
    (hparse : c.parse (trim v) = .error e) :
    (processFile c fl fname dur isdir w).1 = some e ∧
    (processFile c fl fname dur isdir w).2.calls =
      w.calls ++ [.getxattr fname, .setxattr fname (c.format (wallAt w w.tick))] ∧
    lookup (processFile c fl fname dur isdir w).2.fs fname =
      some { n with attr := some (c.format (wallAt w w.tick)) } := by
  have hgs := getsetcrtime_zero c (advance w) _ fname ⟨wallAt w w.tick, some (monoAt w w.tick)⟩
    n (some e) (getcrtime_malformed c (advance w) fname n v e hnode hget hattr hparse) hnode hset
  rw [processFile, timeNow_eq]
  simp only [hgs]
  refine ⟨trivial, ?_, lookup_setAttr _ _ _ _ hnode⟩
  simp

/-- C3, the code at the failing input.  The attribute of `f` holds
`not-a-date`: `processFile` returns the parse error and makes no delete call,
but it does write the attribute, which holds the current date afterwards. -/
theorem processFile_malformed_overwritten :
    rfc3339.parse (trim "not-a-date") = .error (parseError "not-a-date") ∧
    (processFile rfc3339 ⟨false, false⟩ ["f"] (threshold 14) false
      (oneFile (some "not-a-date"))).1 = some (parseError "not-a-date") ∧
    (processFile rfc3339 ⟨false, false⟩ ["f"] (threshold 14) false
      (oneFile (some "not-a-date"))).2.calls =
      [.getxattr ["f"], .setxattr ["f"] "2026-11-04T11:59:59Z"] ∧
    lookup (processFile rfc3339 ⟨false, false⟩ ["f"] (threshold 14) false
      (oneFile (some "not-a-date"))).2.fs ["f"] =
      some { isDir := false, attr := some "2026-11-04T11:59:59Z" } := by
  decide

/-! ### Unreadable attribute values -/

/-- C2, the code at the failing input.  The file `f` was first seen on
2026-11-03T12:00:00Z, a day before the run, and the retention period is fourteen
days, but the system refuses to read its attribute.  `getcrtime` returns the
zero time with the error, `getsetcrtime` tests `t.IsZero()` before the error
and writes: the stored date is replaced by the current one before the error is
returned. -/
theorem processFile_unreadable_overwritten :
    rfc3339.parse (trim "2026-11-03T12:00:00Z") = .ok 63929304000000000000 ∧
    wallAt (unreadable (some "2026-11-03T12:00:00Z")) 1 - 63929304000000000000 ≤ threshold 14 ∧
    (processFile rfc3339 ⟨false, false⟩ ["f"] (threshold 14) false
      (unreadable (some "2026-11-03T12:00:00Z"))).1 =
      some "xattr.getxattr f user.com.ath0.tm.date: permission denied" ∧
    (processFile rfc3339 ⟨false, false⟩ ["f"] (threshold 14) false
      (unreadable (some "2026-11-03T12:00:00Z"))).2.calls =
      [.getxattr ["f"], .setxattr ["f"] "2026-11-04T11:59:59Z"] ∧
    (lookup (processFile rfc3339 ⟨false, false⟩ ["f"] (threshold 14) false
      (unreadable (some "2026-11-03T12:00:00Z"))).2.fs ["f"]).map Node.attr =
      some (some "2026-11-04T11:59:59Z") := by
  decide

/-! ### The value returned by the initialisation -/

/-- C5, the code at the failing input.  `processFile` reads the clock at
11:59:59.999999 and passes that time to `getsetcrtime` for a file without
attribute.  The write succeeds and stores that time, 2026-11-04T11:59:59Z;
the time returned is the later reading 12:00:00.000000 that `getsetcrtime`
takes itself, which differs from the time written, also to the second. -/
theorem getsetcrtime_returns_later_reading :
    (timeNow (oneFile none)).1 = ⟨63929390399999999000, some 5000⟩ ∧
    (getsetcrtime rfc3339 ["f"] (timeNow (oneFile none)).1 (timeNow (oneFile none)).2).1 =
      (⟨63929390400000000000, some 6000⟩, none) ∧
    (getsetcrtime rfc3339 ["f"] (timeNow (oneFile none)).1 (timeNow (oneFile none)).2).2.calls =
      [.getxattr ["f"], .setxattr ["f"] "2026-11-04T11:59:59Z"] ∧
    lookup (getsetcrtime rfc3339 ["f"] (timeNow (oneFile none)).1
      (timeNow (oneFile none)).2).2.fs ["f"] =
      some { isDir := false, attr := some "2026-11-04T11:59:59Z" } ∧
    rfc3339.format 63929390399999999000 = "2026-11-04T11:59:59Z" ∧
    rfc3339.format 63929390400000000000 = "2026-11-04T12:00:00Z" := by
  decide

/-! ### Idempotence of the initialisation -/

/-- A current time, truncated to the second, is not the zero instant. -/
theorem truncated_reading_ne_zero (r : Reading) : r.toTime.wall / Second * Second ≠ 0 := by
  unfold Reading.toTime unixToInternal Second
  have h : (0 : Int) ≤ (r.unixNano : Int) := Int.ofNat_nonneg _
  simp only
  omega

/-- C6, amended. On an entry that starts without attribute, whose attribute
read reports the absence and no other error and on which the first write
succeeds, two calls of `getsetcrtime` in succession, with any two current
times, leave the same attribute: after the first call the attribute holds the
text of the first time; the second call makes the attribute read its only
system call, so it writes nothing and the file system is the one the first call
left; and it returns, without error, the time parsed from the value the first
call stored.  The stored text is taken to parse to the time it was made from, to
the second, as `time.Parse` does. -/
theorem getsetcrtime_idempotent (c : Codec) (w : World) (fname : Path) (r1 r2 : Reading)
    (n : Node) (hnode : lookup w.fs fname = some n) (hget : n.getErr = none)
    (hattr : n.attr = none) (hset : n.setErr = none)
    (hround : c.parse (trim (c.format r1.toTime.wall)) = .ok (r1.toTime.wall / Second * Second)) :
    lookup (getsetcrtime c fname r1.toTime w).2.fs fname =
      some { n with attr := some (c.format r1.toTime.wall) } ∧
    (getsetcrtime c fname r2.toTime (getsetcrtime c fname r1.toTime w).2).2.fs =
      (getsetcrtime c fname r1.toTime w).2.fs ∧
    (getsetcrtime c fname r2.toTime (getsetcrtime c fname r1.toTime w).2).2.calls =
      (getsetcrtime c fname r1.toTime w).2.calls ++ [.getxattr fname] ∧
    (getsetcrtime c fname r2.toTime (getsetcrtime c fname r1.toTime w).2).1 =
      (⟨r1.toTime.wall / Second * Second, none⟩, none) := by
  rw [getsetcrtime_fresh c w fname r1.toTime n hnode hget hattr hset]
  have hnode1 := lookup_setAttr w.fs fname (c.format r1.toTime.wall) n hnode
  have hsnd := getsetcrtime_stored c
    { record (.setxattr fname (c.format r1.toTime.wall)) (advance (record (.getxattr fname) w)) with
      fs := setAttr w.fs fname (c.format r1.toTime.wall) }
    fname r2.toTime { n with attr := some (c.format r1.toTime.wall) } (c.format r1.toTime.wall)
    (r1.toTime.wall / Second * Second) hnode1 hget rfl hround (truncated_reading_ne_zero r1)
  simp only at hsnd ⊢
  rw [hsnd]
  exact ⟨hnode1, rfl, rfl, rfl⟩

/-- The file `f` has no attribute; the first call is made with the time
11:59:59.999999 and the second with a time five microseconds later. -/
theorem getsetcrtime_idempotent_witness :
    rfc3339.parse (trim (rfc3339.format (clock2026 0).toTime.wall)) =
      .ok ((clock2026 0).toTime.wall / Second * Second) ∧
    lookup (getsetcrtime rfc3339 ["f"] (clock2026 0).toTime (oneFile none)).2.fs ["f"] =
      some { isDir := false, attr := some (rfc3339.format (clock2026 0).toTime.wall) } ∧
    (getsetcrtime rfc3339 ["f"] (clock2026 5).toTime
      (getsetcrtime rfc3339 ["f"] (clock2026 0).toTime (oneFile none)).2).2.fs =
      (getsetcrtime rfc3339 ["f"] (clock2026 0).toTime (oneFile none)).2.fs ∧
    (getsetcrtime rfc3339 ["f"] (clock2026 5).toTime
      (getsetcrtime rfc3339 ["f"] (clock2026 0).toTime (oneFile none)).2).2.calls =
      (getsetcrtime rfc3339 ["f"] (clock2026 0).toTime (oneFile none)).2.calls ++
        [.getxattr ["f"]] ∧
    (getsetcrtime rfc3339 ["f"] (clock2026 5).toTime
      (getsetcrtime rfc3339 ["f"] (clock2026 0).toTime (oneFile none)).2).1 =
      (⟨(clock2026 0).toTime.wall / Second * Second, none⟩, none) :=
  ⟨by decide,
   getsetcrtime_idempotent rfc3339 (oneFile none) ["f"] (clock2026 0) (clock2026 5)
    { isDir := false, attr := none } (by decide) (by decide) (by decide) (by decide)
    (by decide)⟩

/-- C6 fails as stated.  On a file without attribute that the system refuses
to write, the second call makes a write call again and returns its error.  On a
file without attribute whose read the system refuses while it accepts the
writes, both calls write, and the second, made two seconds later, replaces the
value the first one stored. -/
theorem getsetcrtime_second_call_writes :
    (getsetcrtime rfc3339 ["f"] (clock2026 5).toTime
      (getsetcrtime rfc3339 ["f"] (clock2026 0).toTime (readOnlyFile none)).2).2.calls =
      (getsetcrtime rfc3339 ["f"] (clock2026 0).toTime (readOnlyFile none)).2.calls ++
        [.getxattr ["f"], .setxattr ["f"] "2026-11-04T12:00:00Z"] ∧
    (getsetcrtime rfc3339 ["f"] (clock2026 5).toTime
      (getsetcrtime rfc3339 ["f"] (clock2026 0).toTime (readOnlyFile none)).2).1.2 =
      some "read-only file system" ∧
    (lookup (getsetcrtime rfc3339 ["f"] (clock2026 0).toTime (unreadable none)).2.fs
      ["f"]).map Node.attr = some (some "2026-11-04T11:59:59Z") ∧
    (getsetcrtime rfc3339 ["f"] (clock2026 2000000).toTime
      (getsetcrtime rfc3339 ["f"] (clock2026 0).toTime (unreadable none)).2).2.calls =
      (getsetcrtime rfc3339 ["f"] (clock2026 0).toTime (unreadable none)).2.calls ++
        [.getxattr ["f"], .setxattr ["f"] "2026-11-04T12:00:01Z"] ∧
    (lookup (getsetcrtime rfc3339 ["f"] (clock2026 2000000).toTime
      (getsetcrtime rfc3339 ["f"] (clock2026 0).toTime (unreadable none)).2).2.fs
      ["f"]).map Node.attr = some (some "2026-11-04T12:00:01Z") := by
  decide

/-! ### Failures of the delete call -/

/-- The run of `processFile` once `getsetcrtime` has returned a time and no
error, when the age exceeds the retention period and `dryrun` is off: the
delete call is made and `nil` is returned whatever the call answers. -/
theorem processFile_expired (c : Codec) (fl : Flags) (w : World) (fname : Path) (dur : Int)
    (isdir : Bool) (t : Time) (w1 : World)
    (hts : getsetcrtime c fname (timeNow w).1 (timeNow w).2 = ((t, none), w1))
    (hage : (timeSince t w1).1 > dur) (hdry : fl.dryrun = false) :
    (processFile c fl fname dur isdir w).1 = none ∧
    (processFile c fl fname dur isdir w).2.calls =
      w1.calls ++ [if isdir then .removeAll fname else .remove fname] ∧
    ∀ e, (if isdir then osRemoveAll fname w1 else osRemove fname w1).1 = some e →
      (processFile c fl fname dur isdir w).2.out =
        w1.out ++ (if fl.verbose then [.rm fname (ageDays (timeSince t w1).1)] else []) ++
          [.errRemove e] := by
  obtain ⟨verbose, dryrun⟩ := fl
  simp only at hdry
  subst hdry
  rw [processFile]
  simp only [hts]
  simp only [timeSince_eq] at hage ⊢
  rw [if_pos hage]
  simp only [Bool.not_false, if_true]
  generalize hw3 : (if verbose = true then
      emit (.rm fname (ageDays ((Time.mk (wallAt w1 w1.tick) (some (monoAt w1 w1.tick))).Sub t)))
        (advance w1)
      else advance w1) = w3
  have hfs : w3.fs = w1.fs := by subst hw3; cases verbose <;> rfl
  have hcalls : w3.calls = w1.calls := by subst hw3; cases verbose <;> rfl
  have hout : w3.out = w1.out ++ (if verbose = true then
      [.rm fname (ageDays ((Time.mk (wallAt w1 w1.tick) (some (monoAt w1 w1.tick))).Sub t))]
      else []) := by
    subst hw3; cases verbose <;> simp
  cases isdir
  · obtain ⟨h1, h2, h3, _, _⟩ := osRemove_spec fname w3 w1 hfs
    simp only [Bool.false_eq_true, if_false]
    rcases hp : osRemove fname w3 with ⟨_ | e2, w4⟩
    · rw [hp] at h1 h2
      refine ⟨rfl, by simpa [hcalls] using h2, ?_⟩
      intro e he
      rw [← h1] at he
      simp at he
    · rw [hp] at h1 h2 h3
      refine ⟨rfl, by simpa [hcalls] using h2, ?_⟩
      intro e he
      rw [← h1] at he
      simp only [Option.some.injEq] at he
      subst he
      simp only at h3
      simp [h3, hout]
  · obtain ⟨h1, h2, h3, _⟩ := osRemoveAll_spec fname w3 w1 hfs
    simp only [if_true]
    rcases hp : osRemoveAll fname w3 with ⟨_ | e2, w4⟩
    · rw [hp] at h1 h2
      refine ⟨rfl, by simpa [hcalls] using h2, ?_⟩
      intro e he
      rw [← h1] at he
      simp at he
    · rw [hp] at h1 h2 h3
      refine ⟨rfl, by simpa [hcalls] using h2, ?_⟩
      intro e he
      rw [← h1] at he
      simp only [Option.some.injEq] at he
      subst he
      simp only at h3
      simp [h3, hout]

/-- C9. For an entry older than the retention period with `dryrun` off, when
the delete call (`os.Remove` for a file, `os.RemoveAll` for a directory) fails
with an error, `processFile` still returns `nil`: the delete call has been
made and its error has gone to standard error, after the `rm` line when
`verbose` is set, and nowhere else. -/
theorem processFile_swallows_delete_error (c : Codec) (fl : Flags) (w : World) (fname : Path)
    (dur : Int) (isdir : Bool) (t : Time) (w1 : World) (e : Err)
    (hts : getsetcrtime c fname (timeNow w).1 (timeNow w).2 = ((t, none), w1))
    (hage : (timeSince t w1).1 > dur) (hdry : fl.dryrun = false)
    (hfail : (if isdir then osRemoveAll fname w1 else osRemove fname w1).1 = some e) :
    (processFile c fl fname dur isdir w).1 = none ∧
    (processFile c fl fname dur isdir w).2.calls =
      w1.calls ++ [if isdir then .removeAll fname else .remove fname] ∧
    (processFile c fl fname dur isdir w).2.out =
      w1.out ++ (if fl.verbose then [.rm fname (ageDays (timeSince t w1).1)] else []) ++
        [.errRemove e] := by
  obtain ⟨h1, h2, h3⟩ := processFile_expired c fl w fname dur isdir t w1 hts hage hdry
  exact ⟨h1, h2, h3 e hfail⟩

/-- The system refuses to delete the file `f`, which is a month old:
`processFile` returns `nil` and the refusal is reported after the `rm` line.
In the directory `d`, a month old, the system refuses to delete the file `b`:
`os.RemoveAll` deletes the file `a`, leaves `b` and `d` and fails; `processFile`
returns `nil` all the same. -/
theorem processFile_swallows_delete_error_witness :
    (timeSince ⟨63926712000000000000, none⟩ stuckOldRead).1 > threshold 14 ∧
    (osRemove ["f"] stuckOldRead).1 = some "operation not permitted" ∧
    ((processFile rfc3339 ⟨true, false⟩ ["f"] (threshold 14) false stuckOld).1 = none ∧
      (processFile rfc3339 ⟨true, false⟩ ["f"] (threshold 14) false stuckOld).2.calls =
        stuckOldRead.calls ++ [if false = true then .removeAll ["f"] else .remove ["f"]] ∧
      (processFile rfc3339 ⟨true, false⟩ ["f"] (threshold 14) false stuckOld).2.out =
        stuckOldRead.out ++
          (if (Flags.mk true false).verbose = true then
            [.rm ["f"] (ageDays (timeSince ⟨63926712000000000000, none⟩ stuckOldRead).1)]
            else []) ++
          [.errRemove "operation not permitted"]) ∧
    (timeSince ⟨63926712000000000000, none⟩ stuckDirRead).1 > threshold 14 ∧
    (osRemoveAll ["d"] stuckDirRead).1 = some "operation not permitted" ∧
    ((processFile rfc3339 ⟨false, false⟩ ["d"] (threshold 14) true stuckDir).1 = none ∧
      (processFile rfc3339 ⟨false, false⟩ ["d"] (threshold 14) true stuckDir).2.calls =
        stuckDirRead.calls ++ [if true = true then .removeAll ["d"] else .remove ["d"]] ∧
      (processFile rfc3339 ⟨false, false⟩ ["d"] (threshold 14) true stuckDir).2.out =
        stuckDirRead.out ++
          (if (Flags.mk false false).verbose = true then
            [.rm ["d"] (ageDays (timeSince ⟨63926712000000000000, none⟩ stuckDirRead).1)]
            else []) ++
          [.errRemove "operation not permitted"]) ∧
    (processFile rfc3339 ⟨false, false⟩ ["d"] (threshold 14) true stuckDir).2.fs =
      [(["d"], { isDir := true, attr := some "2026-10-04T12:00:00Z" }),
        (["d", "b"], { isDir := false, attr := none, rmErr := some "operation not permitted" })] :=
  ⟨by decide, by decide,
   processFile_swallows_delete_error rfc3339 ⟨true, false⟩ stuckOld ["f"] (threshold 14) false
    ⟨63926712000000000000, none⟩ stuckOldRead "operation not permitted"
    (Prod.ext (by decide) rfl) (by decide) rfl (by decide),
   by decide, by decide,
   processFile_swallows_delete_error rfc3339 ⟨false, false⟩ stuckDir ["d"] (threshold 14) true
    ⟨63926712000000000000, none⟩ stuckDirRead "operation not permitted"
    (Prod.ext (by decide) rfl) (by decide) rfl (by decide),
   by decide⟩

/-! ### The retention period -/

theorem threshold_exact (d : Int) (hd : -106751 ≤ d ∧ d ≤ 106751) :
    threshold d = d * 24 * 3600000000000 := by
  unfold threshold wrap64 Hour
  omega

theorem threshold_congr (d : Int) : (threshold d - d * 24 * 3600000000000) % 2 ^ 64 = 0 := by
  unfold threshold wrap64 Hour
  omega

/-- C10. The retention period `main` computes from the day count `d` is
`d * 24 * 3,600,000,000,000` nanoseconds reduced to the signed 64-bit range:
it lies in that range and differs from the product by a multiple of 2 ^ 64 for
every day count `k`, and it is the product itself when `|d| ≤ 106751`.  For
106752 days it is the product minus 2 ^ 64, a negative duration; every age that
is not negative exceeds it, so `processFile`, `dryrun` being off, issues the
delete call for every entry whose date it obtained with such an age. -/
theorem threshold_wraps (d k : Int) (hd : -106751 ≤ d ∧ d ≤ 106751) (c : Codec) (fl : Flags)
    (w : World) (fname : Path) (isdir : Bool) (t : Time) (w1 : World)
    (hts : getsetcrtime c fname (timeNow w).1 (timeNow w).2 = ((t, none), w1))
    (hage : 0 ≤ (timeSince t w1).1) (hdry : fl.dryrun = false) :
    threshold d = d * 24 * 3600000000000 ∧
    (minDuration ≤ threshold k ∧ threshold k ≤ maxDuration ∧
      (threshold k - k * 24 * 3600000000000) % 2 ^ 64 = 0) ∧
    threshold 106752 = 106752 * 24 * 3600000000000 - 2 ^ 64 ∧
    threshold 106752 < 0 ∧
    (timeSince t w1).1 > threshold 106752 ∧
    (processFile c fl fname (threshold 106752) isdir w).1 = none ∧
    (processFile c fl fname (threshold 106752) isdir w).2.calls =
      w1.calls ++ [if isdir then .removeAll fname else .remove fname] := by
  have hneg : threshold 106752 < 0 := by decide
  have hgt : (timeSince t w1).1 > threshold 106752 := lt_of_lt_of_le hneg hage
  obtain ⟨h1, h2, _⟩ := processFile_expired c fl w fname (threshold 106752) isdir t w1 hts hgt hdry
  exact ⟨threshold_exact d hd, ⟨(threshold_range k).1, le_of_lt (threshold_range k).2,
    threshold_congr k⟩, by decide, hneg, hgt, h1, h2⟩

/-- With `-days 106752` the file `f`, first seen an hour ago, is deleted; with
`-days 106751` the period is the exact product. -/
theorem threshold_wraps_witness :
    0 ≤ (timeSince ⟨63929386800000000000, none⟩ recentRead).1 ∧
    threshold 106751 = 106751 * 24 * 3600000000000 ∧
    threshold 106752 < 0 ∧
    (processFile rfc3339 ⟨false, false⟩ ["f"] (threshold 106752) false recent).2.calls =
      recentRead.calls ++ [if false = true then .removeAll ["f"] else .remove ["f"]] :=
  have h := threshold_wraps 106751 (-106752) ⟨by decide, by decide⟩ rfc3339 ⟨false, false⟩ recent
    ["f"] false ⟨63929386800000000000, none⟩ recentRead (Prod.ext (by decide) rfl) (by decide) rfl
  ⟨by decide, h.1, h.2.2.2.1, h.2.2.2.2.2.2⟩

/-! ### The system calls of one evaluation -/

theorem getcrtime_world (c : Codec) (fname : Path) (w : World) :
    (getcrtime c fname w).2 = record (.getxattr fname) w := by
  unfold getcrtime Getxattr
  cases lookup w.fs fname with
  | none => simp only; split_ifs <;> rfl
  | some n =>
    obtain ⟨isDir, attr, statErr, getErr, setErr, rmErr, readErr⟩ := n
    cases getErr with
    | some e => simp only; split_ifs <;> rfl
    | none =>
      cases attr with
      | none => simp only; split_ifs <;> rfl
      | some v =>
        simp only
        cases c.parse (trim v) <;> rfl

theorem Setxattr_calls (p : Path) (v : String) (w : World) :
    (Setxattr p v w).2.calls = w.calls ++ [.setxattr p v] := by
  unfold Setxattr
  cases lookup w.fs p with
  | none => rfl
  | some n =>
    obtain ⟨isDir, attr, statErr, getErr, setErr, rmErr, readErr⟩ := n
    cases setErr <;> rfl

/-- The calls of `getsetcrtime`: the attribute read, and the attribute write
when the time read is the zero time. -/
theorem getsetcrtime_calls (c : Codec) (fname : Path) (ts : Time) (w : World) :
    (getsetcrtime c fname ts w).2.calls = w.calls ++ [.getxattr fname] ∨
    (getsetcrtime c fname ts w).2.calls =
      w.calls ++ [.getxattr fname, .setxattr fname (c.format ts.wall)] := by
  unfold getsetcrtime
  have hw := getcrtime_world c fname w
  rcases hg : getcrtime c fname w with ⟨⟨t, err⟩, w1⟩
  rw [hg] at hw
  simp only at hw
  subst hw
  simp only
  by_cases hz : t.IsZero = true
  · right
    rw [if_pos hz]
    have hs := Setxattr_calls fname (c.format ts.wall) (timeNow (record (.getxattr fname) w)).2
    simp only [setcrtime]
    rcases hp : Setxattr fname (c.format ts.wall) (timeNow (record (.getxattr fname) w)).2 with
      ⟨_ | e2, w3⟩
    · rw [hp] at hs
      simpa [timeNow] using hs
    · rw [hp] at hs
      simpa [timeNow] using hs
  · left
    rw [if_neg hz]
    rfl

/-- Every system call `processFile` makes acts on the entry itself, and none
lists it. -/
theorem processFile_calls (c : Codec) (fl : Flags) (fname : Path) (dur : Int) (isdir : Bool)
    (w : World) :
    ∃ evs, (processFile c fl fname dur isdir w).2.calls = w.calls ++ evs ∧
      ∀ e ∈ evs, Call.leafOn fname e := by
  have hgs := getsetcrtime_calls c fname (timeNow w).1 (timeNow w).2
  unfold processFile
  simp only
  rcases hp : getsetcrtime c fname (timeNow w).1 (timeNow w).2 with ⟨⟨t, _ | err⟩, w1⟩
  · rw [hp] at hgs
    simp only [timeNow, advance_calls] at hgs
    have hpre : ∃ pre, w1.calls = w.calls ++ pre ∧ ∀ e ∈ pre, Call.leafOn fname e := by
      rcases hgs with h | h
      · exact ⟨_, h, by simp [Call.leafOn, Call.path, Call.isReaddir, Call.isStat]⟩
      · exact ⟨_, h, by simp [Call.leafOn, Call.path, Call.isReaddir, Call.isStat]⟩
    obtain ⟨pre, hpre, hleaf⟩ := hpre
    simp only [timeSince_eq]
    obtain ⟨verbose, dryrun⟩ := fl
    by_cases hage : (Time.mk (wallAt w1 w1.tick) (some (monoAt w1 w1.tick))).Sub t > dur
    · rw [if_pos hage]
      generalize hw3 : (if verbose = true then
          emit (.rm fname (ageDays ((Time.mk (wallAt w1 w1.tick) (some (monoAt w1 w1.tick))).Sub t)))
            (advance w1)
          else advance w1) = w3
      have hcalls : w3.calls = w1.calls := by subst hw3; cases verbose <;> rfl
      cases dryrun
      · simp only [Bool.not_false, if_true]
        cases isdir
        · have h2 := (osRemove_spec fname w3 w3 rfl).2.1
          simp only [Bool.false_eq_true, if_false]
          refine ⟨pre ++ [.remove fname], ?_, ?_⟩
          · rcases hq : osRemove fname w3 with ⟨_ | e2, w4⟩ <;> rw [hq] at h2 <;>
              simp only at h2 <;> simp [h2, hcalls, hpre]
          · intro e he
            rcases List.mem_append.mp he with h | h
            · exact hleaf e h
            · simp only [List.mem_singleton] at h
              subst h
              exact ⟨rfl, rfl, rfl⟩
        · have h2 := (osRemoveAll_spec fname w3 w3 rfl).2.1
          simp only [if_true]
          refine ⟨pre ++ [.removeAll fname], ?_, ?_⟩
          · rcases hq : osRemoveAll fname w3 with ⟨_ | e2, w4⟩ <;> rw [hq] at h2 <;>
              simp only at h2 <;> simp [h2, hcalls, hpre]
          · intro e he
            rcases List.mem_append.mp he with h | h
            · exact hleaf e h
            · simp only [List.mem_singleton] at h
              subst h
              exact ⟨rfl, rfl, rfl⟩
      · exact ⟨pre, by simp [hcalls, hpre], hleaf⟩
    · rw [if_neg hage]
      exact ⟨pre, by cases verbose <;> simp [hpre], hleaf⟩
  · rw [hp] at hgs
    simp only [timeNow, advance_calls] at hgs
    rcases hgs with h | h
    · exact ⟨_, h, by simp [Call.leafOn, Call.path, Call.isReaddir, Call.isStat]⟩
    · exact ⟨_, h, by simp [Call.leafOn, Call.path, Call.isReaddir, Call.isStat]⟩

/-! ### A leaf is evaluated on its own entry alone -/

theorem sameRun_start {p : Path} {w w' : World} (h : SameEntry p w w') :
    SameRun p w.calls w'.calls w w' :=
  ⟨h, [], by simp, by simp⟩

theorem sameRun_record {p : Path} {b b' : List Call} {w w' : World}
    (h : SameRun p b b' w w') (c : Call) : SameRun p b b' (record c w) (record c w') := by
  obtain ⟨⟨h1, h2, h3⟩, evs, h4, h5⟩ := h
  exact ⟨⟨h1, h2, h3⟩, evs ++ [c], by simp [h4], by simp [h5]⟩

theorem sameRun_emit {p : Path} {b b' : List Call} {w w' : World}
    (h : SameRun p b b' w w') (o o' : Output) : SameRun p b b' (emit o w) (emit o' w') := by
  obtain ⟨⟨h1, h2, h3⟩, evs, h4, h5⟩ := h
  exact ⟨⟨h1, h2, h3⟩, evs, h4, h5⟩

theorem sameRun_advance {p : Path} {b b' : List Call} {w w' : World}
    (h : SameRun p b b' w w') : SameRun p b b' (advance w) (advance w') := by
  obtain ⟨⟨h1, h2, h3⟩, evs, h4, h5⟩ := h
  exact ⟨⟨h1, by simp [h2], h3⟩, evs, h4, h5⟩

theorem sameRun_getcrtime {p : Path} {b b' : List Call} {w w' : World}
    (h : SameRun p b b' w w') (c : Codec) :
    (getcrtime c p w').1 = (getcrtime c p w).1 ∧
    SameRun p b b' (getcrtime c p w).2 (getcrtime c p w').2 := by
  refine ⟨?_, by rw [getcrtime_world, getcrtime_world]; exact sameRun_record h _⟩
  unfold getcrtime Getxattr
  rw [h.1.2.2]
  cases lookup w.fs p with
  | none => simp only; split_ifs <;> rfl
  | some n =>
    obtain ⟨isDir, attr, statErr, getErr, setErr, rmErr, readErr⟩ := n
    cases getErr with
    | some e => simp only; split_ifs <;> rfl
    | none =>
      cases attr with
      | none => simp only; split_ifs <;> rfl
      | some v =>
        simp only
        cases c.parse (trim v) <;> rfl

theorem sameRun_Setxattr {p : Path} {b b' : List Call} {w w' : World}
    (h : SameRun p b b' w w') (v : String) :
    (Setxattr p v w').1 = (Setxattr p v w).1 ∧
    SameRun p b b' (Setxattr p v w).2 (Setxattr p v w').2 := by
  obtain ⟨⟨h1, h2, h5⟩, evs, h3, h4⟩ := h
  unfold Setxattr
  rw [h5]
  cases hl : lookup w.fs p with
  | none => exact ⟨rfl, ⟨h1, h2, h5⟩, evs ++ [.setxattr p v], by simp [h3], by simp [h4]⟩
  | some n =>
    obtain ⟨isDir, attr, statErr, getErr, setErr, rmErr, readErr⟩ := n
    cases setErr with
    | some e => exact ⟨rfl, ⟨h1, h2, h5⟩, evs ++ [.setxattr p v], by simp [h3], by simp [h4]⟩
    | none =>
      refine ⟨rfl, ⟨h1, h2, ?_⟩, evs ++ [.setxattr p v], by simp [h3], by simp [h4]⟩
      simp only
      rw [lookup_setAttr _ _ _ _ hl, lookup_setAttr _ _ _ _ (h5.trans hl)]

theorem sameRun_getsetcrtime {p : Path} {b b' : List Call} {w w' : World}
    (h : SameRun p b b' w w') (c : Codec) (ts : Time) :
    (getsetcrtime c p ts w').1 = (getsetcrtime c p ts w).1 ∧
    SameRun p b b' (getsetcrtime c p ts w).2 (getsetcrtime c p ts w').2 := by
  obtain ⟨g1, g2⟩ := sameRun_getcrtime h c
  unfold getsetcrtime
  rcases hg : getcrtime c p w with ⟨⟨t, err⟩, w1⟩
  rcases hg' : getcrtime c p w' with ⟨⟨t', err'⟩, w1'⟩
  rw [hg, hg'] at g1 g2
  simp only [Prod.mk.injEq] at g1
  obtain ⟨ht, herr⟩ := g1
  subst ht
  subst herr
  simp only at g2 ⊢
  by_cases hz : t'.IsZero = true
  · rw [if_pos hz, if_pos hz]
    simp only [timeNow, setcrtime]
    obtain ⟨s1, s2⟩ := sameRun_Setxattr (sameRun_advance g2) (c.format ts.wall)
    have hclock : (w1'.clock w1'.tick) = (w1.clock w1.tick) := by rw [g2.1.1, g2.1.2.1]
    rcases hs : Setxattr p (c.format ts.wall) (advance w1) with ⟨e, w3⟩
    rcases hs' : Setxattr p (c.format ts.wall) (advance w1') with ⟨e', w3'⟩
    rw [hs, hs'] at s1 s2
    simp only at s1 s2
    subst s1
    cases e' <;> simp [hclock, s2]
  · rw [if_neg hz, if_neg hz]
    exact ⟨rfl, g2⟩

/-- What `processFile` decides rests on the entry itself: on two machines that
agree on the clock and on the entry `p`, and differ at will elsewhere, below `p`
included, it returns the same error and makes the same system calls. -/
theorem sameEntry_processFile {p : Path} {w w' : World} (h : SameEntry p w w') (c : Codec)
    (fl : Flags) (dur : Int) (isdir : Bool) :
    (processFile c fl p dur isdir w').1 = (processFile c fl p dur isdir w).1 ∧
    ∃ evs, (processFile c fl p dur isdir w).2.calls = w.calls ++ evs ∧
      (processFile c fl p dur isdir w').2.calls = w'.calls ++ evs := by
  have hnow : (timeNow w').1 = (timeNow w).1 := by simp [timeNow, h.1, h.2.1]
  obtain ⟨g1, g2⟩ := sameRun_getsetcrtime (sameRun_advance (sameRun_start h)) c (timeNow w).1
  unfold processFile
  simp only
  rw [hnow]
  simp only [timeNow] at g1 g2 ⊢
  rcases hg : getsetcrtime c p (w.clock w.tick).toTime (advance w) with ⟨⟨t, err⟩, w1⟩
  rcases hg' : getsetcrtime c p (w.clock w.tick).toTime (advance w') with ⟨⟨t', err'⟩, w1'⟩
  rw [hg, hg'] at g1 g2
  simp only [Prod.mk.injEq] at g1
  obtain ⟨ht, herr⟩ := g1
  subst ht
  subst herr
  simp only at g2
  cases err' with
  | some e => exact ⟨rfl, g2.2⟩
  | none =>
    simp only [timeSince, timeNow]
    have hclock : (w1'.clock w1'.tick) = (w1.clock w1.tick) := by rw [g2.1.1, g2.1.2.1]
    rw [hclock]
    obtain ⟨verbose, dryrun⟩ := fl
    by_cases hage : (w1.clock w1.tick).toTime.Sub t' > dur
    · rw [if_pos hage, if_pos hage]
      have h3 : SameRun p w.calls w'.calls
          (if verbose = true then
            emit (.rm p (ageDays ((w1.clock w1.tick).toTime.Sub t'))) (advance w1)
            else advance w1)
          (if verbose = true then
            emit (.rm p (ageDays ((w1.clock w1.tick).toTime.Sub t'))) (advance w1')
            else advance w1') := by
        cases verbose
        · exact sameRun_advance g2
        · exact sameRun_emit (sameRun_advance g2) _ _
      generalize (if verbose = true then
            emit (.rm p (ageDays ((w1.clock w1.tick).toTime.Sub t'))) (advance w1)
            else advance w1) = w3 at h3 ⊢
      generalize (if verbose = true then
            emit (.rm p (ageDays ((w1.clock w1.tick).toTime.Sub t'))) (advance w1')
            else advance w1') = w3' at h3 ⊢
      obtain ⟨_, evs, e1, e2⟩ := h3
      cases dryrun
      · simp only [Bool.not_false, if_true]
        cases isdir
        · have c1 := (osRemove_spec p w3 w3 rfl).2.1
          have c2 := (osRemove_spec p w3' w3' rfl).2.1
          simp only [Bool.false_eq_true, if_false]
          refine ⟨?_, evs ++ [.remove p], ?_, ?_⟩
          · rcases osRemove p w3 with ⟨_ | a, w4⟩ <;> rcases osRemove p w3' with ⟨_ | a', w4'⟩ <;>
              rfl
          · rcases hq : osRemove p w3 with ⟨_ | a, w4⟩ <;> rw [hq] at c1 <;>
              simp only at c1 <;> simp [c1, e1]
          · rcases hq : osRemove p w3' with ⟨_ | a, w4⟩ <;> rw [hq] at c2 <;>
              simp only at c2 <;> simp [c2, e2]
        · have c1 := (osRemoveAll_spec p w3 w3 rfl).2.1
          have c2 := (osRemoveAll_spec p w3' w3' rfl).2.1
          simp only [if_true]
          refine ⟨?_, evs ++ [.removeAll p], ?_, ?_⟩
          · rcases osRemoveAll p w3 with ⟨_ | a, w4⟩ <;>
              rcases osRemoveAll p w3' with ⟨_ | a', w4'⟩ <;> rfl
          · rcases hq : osRemoveAll p w3 with ⟨_ | a, w4⟩ <;> rw [hq] at c1 <;>
              simp only at c1 <;> simp [c1, e1]
          · rcases hq : osRemoveAll p w3' with ⟨_ | a, w4⟩ <;> rw [hq] at c2 <;>
              simp only at c2 <;> simp [c2, e2]
      · simp only [Bool.not_true, Bool.false_eq_true, if_false]
        exact ⟨trivial, evs, e1, e2⟩
    · rw [if_neg hage, if_neg hage]
      cases verbose
      · exact ⟨rfl, (sameRun_advance g2).2⟩
      · exact ⟨rfl, (sameRun_emit (sameRun_advance g2) _ _).2⟩

/-! ### The walk -/

theorem osStat_world (p : Path) (w : World) : (osStat p w).2 = record (.stat p) w := by
  unfold osStat
  cases lookup w.fs p with
  | none => rfl
  | some n =>
    obtain ⟨isDir, attr, statErr, getErr, setErr, rmErr, readErr⟩ := n
    cases statErr <;> rfl

theorem osReaddirnames_world (p : Path) (w : World) :
    (osReaddirnames p w).2 = record (.readdir p) w := by
  unfold osReaddirnames
  cases lookup w.fs p with
  | none => rfl
  | some n =>
    obtain ⟨isDir, attr, statErr, getErr, setErr, rmErr, readErr⟩ := n
    cases readErr with
    | some e => rfl
    | none => cases isDir <;> rfl

/-- Below the top level `process` stats the entry and then evaluates it as a
leaf, whether it is a file or a directory. -/
theorem process_leaf (c : Codec) (fl : Flags) (p : Path) (dur : Int) (ov : Time) (depth : Int)
    (hdepth : depth > 0) (w : World) :
    ∃ evs, (process c fl p dur ov depth w).2.calls = w.calls ++ .stat p :: evs ∧
      ∀ e ∈ evs, Call.leafOn p e := by
  rw [process]
  have hw := osStat_world p w
  rcases hs : osStat p w with ⟨_ | isDir, w1⟩
  · rw [hs] at hw
    simp only at hw
    subst hw
    exact ⟨[], rfl, by simp⟩
  · rw [hs] at hw
    simp only at hw
    subst hw
    cases isDir
    · obtain ⟨evs, h1, h2⟩ := processFile_calls c fl p dur false (record (.stat p) w)
      exact ⟨evs, by simpa using h1, h2⟩
    · simp only [if_true]
      rw [processDir, if_pos hdepth]
      obtain ⟨evs, h1, h2⟩ := processFile_calls c fl p dur true (record (.stat p) w)
      exact ⟨evs, by simpa using h1, h2⟩

/-- The loop of `processDir` at depth 0 is the walk of the specification. -/
theorem processChildren_eq_foldl (c : Codec) (fl : Flags) (fname : Path) (dur : Int) (ov : Time)
    (files : List String) (cerr : Option Err) (w : World) :
    processChildren c fl fname dur ov 0 files cerr w =
      files.foldl (childStep c fl fname dur ov) (cerr, w) := by
  induction files generalizing cerr w with
  | nil => rw [processChildren]; rfl
  | cons file rest ih =>
    rw [processChildren, List.foldl_cons]
    have h01 : (0 : Int) + 1 = 1 := rfl
    rw [h01]
    unfold childStep
    rcases process c fl (join fname file) dur ov 1 w with ⟨_ | err2, w1⟩
    · exact ih cerr w1
    · exact ih (some err2) (emit (.errDir err2) w1)

/-- The calls of the walk: every child is statted, in listing order, whatever
became of its predecessors; no call lists anything, and every call acts on a
child of the directory. -/
theorem foldl_childStep_calls (c : Codec) (fl : Flags) (fname : Path) (dur : Int) (ov : Time)
    (files : List String) (cerr : Option Err) (w : World) :
    ∃ evs, (files.foldl (childStep c fl fname dur ov) (cerr, w)).2.calls = w.calls ++ evs ∧
      evs.filter Call.isStat = files.map (fun f => Call.stat (join fname f)) ∧
      ∀ e ∈ evs, e.isReaddir = false ∧ ∃ f ∈ files, e.path = join fname f := by
  induction files generalizing cerr w with
  | nil => exact ⟨[], by simp, rfl, by simp⟩
  | cons file rest ih =>
    rw [List.foldl_cons]
    obtain ⟨evs, h1, h2⟩ := process_leaf c fl (join fname file) dur ov 1 (by decide) w
    have hstep : ∃ a, childStep c fl fname dur ov (cerr, w) file = a ∧
        a.2.calls = (process c fl (join fname file) dur ov 1 w).2.calls := by
      unfold childStep
      rcases process c fl (join fname file) dur ov 1 w with ⟨_ | err2, w1⟩
      · exact ⟨_, rfl, rfl⟩
      · exact ⟨_, rfl, rfl⟩
    obtain ⟨⟨cerr1, w1⟩, ha, hcalls⟩ := hstep
    rw [ha]
    obtain ⟨evs2, g1, g2, g3⟩ := ih cerr1 w1
    refine ⟨(.stat (join fname file) :: evs) ++ evs2, ?_, ?_, ?_⟩
    · rw [g1]
      simp only at hcalls
      rw [hcalls, h1]
      simp
    · have hnone : evs.filter Call.isStat = [] := by
        rw [List.filter_eq_nil_iff]
        intro e he
        simp [(h2 e he).2.2]
      simp only [List.cons_append, List.filter_cons, Call.isStat, if_true, List.filter_append,
        hnone, List.nil_append, g2, List.map_cons]
    · intro e he
      rcases List.mem_append.mp he with h | h
      · rcases List.mem_cons.mp h with h | h
        · subst h
          exact ⟨rfl, file, List.mem_cons_self _ _, rfl⟩
        · exact ⟨(h2 e h).2.1, file, List.mem_cons_self _ _, (h2 e h).1⟩
      · obtain ⟨q1, f, hf, q2⟩ := g3 e h
        exact ⟨q1, f, List.mem_cons_of_mem _ hf, q2⟩

theorem getLast?_filterMap_cons_some (a : Option Err) (e : Err) (l : List (Option Err)) :
    ((a :: some e :: l).filterMap id).getLast? = ((some e :: l).filterMap id).getLast? := by
  cases a with
  | none => simp
  | some x =>
    have h : (some x :: some e :: l).filterMap id = [x] ++ (e :: l.filterMap id) := by simp
    have h' : (some e :: l).filterMap id = e :: l.filterMap id := by simp
    rw [h, h', List.getLast?_append_of_ne_nil _ (by simp)]

/-- The error the walk returns is the last error among the outcomes of the
children, or the initial one when no child failed. -/
theorem foldl_childStep_result (c : Codec) (fl : Flags) (fname : Path) (dur : Int) (ov : Time)
    (files : List String) (cerr : Option Err) (w : World) :
    (files.foldl (childStep c fl fname dur ov) (cerr, w)).1 =
      ((cerr :: childResults c fl fname dur ov files w).filterMap id).getLast? := by
  induction files generalizing cerr w with
  | nil => cases cerr <;> simp [childResults]
  | cons file rest ih =>
    have hcs : childStep c fl fname dur ov (cerr, w) file =
        (match process c fl (join fname file) dur ov 1 w with
          | (some err2, w1) => (some err2, emit (.errDir err2) w1)
          | (none, w1) => (cerr, w1)) := rfl
    rw [List.foldl_cons, hcs, childResults]
    rcases process c fl (join fname file) dur ov 1 w with ⟨_ | err2, w1⟩
    · simp only
      rw [ih cerr w1]
      cases cerr <;> simp
    · simp only
      rw [ih (some err2) (emit (.errDir err2) w1)]
      exact (getLast?_filterMap_cons_some cerr err2 _).symm

theorem childResults_length (c : Codec) (fl : Flags) (fname : Path) (dur : Int) (ov : Time)
    (files : List String) (w : World) :
    (childResults c fl fname dur ov files w).length = files.length := by
  induction files generalizing w with
  | nil => rfl
  | cons file rest ih =>
    rw [childResults]
    rcases process c fl (join fname file) dur ov 1 w with ⟨_ | err2, w1⟩
    · simp [ih]
    · simp [ih]

/-- C7. One level of recursion.  At every depth above 0 `processDir` is
`processFile` on the directory with `isdir = true`: every system call it makes
acts on the directory itself and none lists it; and on a machine `w'` that
agrees with `w` on the clock and on the entry of the directory, and differs at
will in what lies below it, it returns the same error and makes the same
calls, so whether the subtree is removed rests on the date of the directory
alone.  At depth 0 `processDir` lists the directory: when the listing fails it
returns that error; when it succeeds `processDir` is the walk that calls
`process` with depth 1 on each name listed, the listing is its only one, and
every later call acts on a child of the directory.  Hence `process` at depth 0
lists at most once and touches only its argument and the immediate children of
its argument. -/
theorem processDir_one_level (c : Codec) (fl : Flags) (fname : Path) (dur : Int) (ov : Time)
    (w : World) :
    (∀ depth : Int, depth > 0 →
      processDir c fl fname dur ov depth w = processFile c fl fname dur true w ∧
      (∃ evs, (processDir c fl fname dur ov depth w).2.calls = w.calls ++ evs ∧
        ∀ e ∈ evs, Call.leafOn fname e) ∧
      ∀ w' : World, SameEntry fname w w' →
        (processDir c fl fname dur ov depth w').1 = (processDir c fl fname dur ov depth w).1 ∧
        ∃ evs, (processDir c fl fname dur ov depth w).2.calls = w.calls ++ evs ∧
          (processDir c fl fname dur ov depth w').2.calls = w'.calls ++ evs) ∧
    (∀ (err : Err) (w1 : World), osReaddirnames fname w = (.error err, w1) →
      processDir c fl fname dur ov 0 w = (some err, w1)) ∧
    (∀ (files : List String) (w1 : World), osReaddirnames fname w = (.ok files, w1) →
      processDir c fl fname dur ov 0 w =
        files.foldl (childStep c fl fname dur ov) (none, w1) ∧
      ∃ evs, (processDir c fl fname dur ov 0 w).2.calls = w.calls ++ .readdir fname :: evs ∧
        ∀ e ∈ evs, e.isReaddir = false ∧ ∃ f ∈ files, e.path = join fname f) ∧
    (∃ evs, (process c fl fname dur ov 0 w).2.calls = w.calls ++ evs ∧
      (evs.filter Call.isReaddir).length ≤ 1 ∧
      ∀ e ∈ evs, e.path = fname ∨ ∃ f, e.path = join fname f) := by
  have hleaf : ∀ (depth : Int), depth > 0 → ∀ w0 : World,
      processDir c fl fname dur ov depth w0 = processFile c fl fname dur true w0 := by
    intro depth hdepth w0
    rw [processDir, if_pos hdepth]
  have hwalk : ∀ (w0 : World) (fs0 : List String) (w2 : World),
      osReaddirnames fname w0 = (.ok fs0, w2) →
      processDir c fl fname dur ov 0 w0 = fs0.foldl (childStep c fl fname dur ov) (none, w2) ∧
      ∃ evs, (processDir c fl fname dur ov 0 w0).2.calls = w0.calls ++ .readdir fname :: evs ∧
        ∀ e ∈ evs, e.isReaddir = false ∧ ∃ f ∈ fs0, e.path = join fname f := by
    intro w0 fs0 w2 h
    have heq : processDir c fl fname dur ov 0 w0 =
        fs0.foldl (childStep c fl fname dur ov) (none, w2) := by
      rw [processDir, if_neg (by decide), h]
      exact processChildren_eq_foldl c fl fname dur ov fs0 none w2
    have hw2 : w2 = record (.readdir fname) w0 := by
      have := osReaddirnames_world fname w0
      rw [h] at this
      exact this
    obtain ⟨evs, g1, _, g3⟩ := foldl_childStep_calls c fl fname dur ov fs0 none w2
    refine ⟨heq, evs, ?_, g3⟩
    rw [heq, g1, hw2]
    simp
  refine ⟨?_, ?_, hwalk w, ?_⟩
  · intro depth hdepth
    refine ⟨hleaf depth hdepth w, ?_, ?_⟩
    · rw [hleaf depth hdepth w]
      exact processFile_calls c fl fname dur true w
    · intro w' hsame
      rw [hleaf depth hdepth w, hleaf depth hdepth w']
      exact sameEntry_processFile hsame c fl dur true
  · intro err w1 h
    rw [processDir, if_neg (by decide), h]
  · rw [process]
    have hw := osStat_world fname w
    rcases hs : osStat fname w with ⟨_ | isDir, w0⟩
    · rw [hs] at hw
      simp only at hw
      subst hw
      exact ⟨[.stat fname], rfl, by simp [List.filter, Call.isReaddir], by simp [Call.path]⟩
    · rw [hs] at hw
      simp only at hw
      subst hw
      cases isDir
      · obtain ⟨evs, h1, h2⟩ := processFile_calls c fl fname dur false (record (.stat fname) w)
        refine ⟨.stat fname :: evs, by simpa using h1, ?_, ?_⟩
        · have hnone : evs.filter Call.isReaddir = [] := by
            rw [List.filter_eq_nil_iff]
            intro e he
            simp [(h2 e he).2.1]
          simp [List.filter_cons, Call.isReaddir, hnone]
        · intro e he
          rcases List.mem_cons.mp he with h | h
          · subst h
            exact Or.inl rfl
          · exact Or.inl (h2 e h).1
      · simp only [if_true]
        have hrd := osReaddirnames_world fname (record (.stat fname) w)
        rcases hr : osReaddirnames fname (record (.stat fname) w) with ⟨_ | fs0, w2⟩
        · rw [processDir, if_neg (by decide), hr]
          rw [hr] at hrd
          simp only at hrd
          subst hrd
          exact ⟨[.stat fname, .readdir fname], by simp, by simp [List.filter, Call.isReaddir],
            by simp [Call.path]⟩
        · obtain ⟨_, evs, g1, g2⟩ := hwalk (record (.stat fname) w) fs0 w2 hr
          refine ⟨.stat fname :: .readdir fname :: evs, by simpa using g1, ?_, ?_⟩
          · have hnone : evs.filter Call.isReaddir = [] := by
              rw [List.filter_eq_nil_iff]
              intro e he
              simp [(g2 e he).1]
            simp [List.filter_cons, Call.isReaddir, hnone]
          · intro e he
            rcases List.mem_cons.mp he with h | h
            · subst h
              exact Or.inl rfl
            · rcases List.mem_cons.mp h with h | h
              · subst h
                exact Or.inl rfl
              · obtain ⟨_, f, _, hf⟩ := g2 e h
                exact Or.inr ⟨f, hf⟩

/-- C8. At depth 0, the listing of the directory having returned the names
`files`, `processDir` calls `process` on every name in listing order, whatever
became of the names before it: the `stat` calls it makes are those of all the
children, in that order.  It returns the error of the last child that failed,
and `nil` exactly when no child failed. -/
theorem processDir_continues_after_failure (c : Codec) (fl : Flags) (fname : Path) (dur : Int)
    (ov : Time) (w : World) (files : List String) (w1 : World)
    (hlist : osReaddirnames fname w = (.ok files, w1)) :
    (∃ evs, (processDir c fl fname dur ov 0 w).2.calls = w1.calls ++ evs ∧
      evs.filter Call.isStat = files.map (fun f => Call.stat (join fname f))) ∧
    (childResults c fl fname dur ov files w1).length = files.length ∧
    (processDir c fl fname dur ov 0 w).1 =
      ((childResults c fl fname dur ov files w1).filterMap id).getLast? ∧
    ((processDir c fl fname dur ov 0 w).1 = none ↔
      ∀ r ∈ childResults c fl fname dur ov files w1, r = none) := by
  have heq : processDir c fl fname dur ov 0 w =
      files.foldl (childStep c fl fname dur ov) (none, w1) := by
    rw [processDir, if_neg (by decide), hlist]
    exact processChildren_eq_foldl c fl fname dur ov files none w1
  have hres : (processDir c fl fname dur ov 0 w).1 =
      ((childResults c fl fname dur ov files w1).filterMap id).getLast? := by
    rw [heq, foldl_childStep_result]
    simp
  obtain ⟨evs, g1, g2, _⟩ := foldl_childStep_calls c fl fname dur ov files none w1
  refine ⟨⟨evs, by rw [heq]; exact g1, g2⟩, childResults_length c fl fname dur ov files w1,
    hres, ?_⟩
  rw [hres, List.getLast?_eq_none_iff, List.filterMap_eq_nil_iff]
  constructor
  · intro h r hr
    have := h r hr
    cases r with
    | none => rfl
    | some e => simp at this
  · intro h r hr
    rw [h r hr]
    rfl

/-- The scenario of the specification, with a retention period of fourteen
days.  The walk of `cache` lists it once, stores a date on `a.txt` and removes
`old` as a whole, on the strength of its own date: the file `x` inside it, never
seen before, is never looked at, and what is decided for `old` is the same on
the machine `cacheOther`, where `old` holds other files. -/
theorem processDir_one_level_witness :
    (1 : Int) > 0 ∧
    (osReaddirnames ["cache"] cache).1 = .ok ["a.txt", "old"] ∧
    processDir rfc3339 ⟨false, false⟩ ["cache", "old"] (threshold 14) Time.zero 1 cache =
      processFile rfc3339 ⟨false, false⟩ ["cache", "old"] (threshold 14) true cache ∧
    (processDir rfc3339 ⟨false, false⟩ ["cache", "old"] (threshold 14) Time.zero 1
      cacheOther).1 =
      (processDir rfc3339 ⟨false, false⟩ ["cache", "old"] (threshold 14) Time.zero 1 cache).1 ∧
    (processDir rfc3339 ⟨false, false⟩ ["cache"] (threshold 14) Time.zero 0 cache).2.calls =
      [.readdir ["cache"], .stat ["cache", "a.txt"], .getxattr ["cache", "a.txt"],
        .setxattr ["cache", "a.txt"] "2026-11-04T11:59:59Z", .stat ["cache", "old"],
        .getxattr ["cache", "old"], .removeAll ["cache", "old"]] ∧
    (processDir rfc3339 ⟨false, false⟩ ["cache"] (threshold 14) Time.zero 0 cache).2.fs =
      [(["cache"], { isDir := true, attr := none }),
        (["cache", "a.txt"], { isDir := false, attr := some "2026-11-04T11:59:59Z" })] :=
  have hold := (processDir_one_level rfc3339 ⟨false, false⟩ ["cache", "old"] (threshold 14)
    Time.zero cache).1 1 (by decide)
  have hroot := ((processDir_one_level rfc3339 ⟨false, false⟩ ["cache"] (threshold 14)
    Time.zero cache).2.2.1 ["a.txt", "old"] (record (.readdir ["cache"]) cache)
    (Prod.ext (by decide) rfl)).1
  ⟨by decide, by decide, hold.1, (hold.2.2 cacheOther ⟨rfl, rfl, by decide⟩).1,
    by rw [hroot]; simp only [List.foldl, childStep, process, processDir]; decide,
    by rw [hroot]; simp only [List.foldl, childStep, process, processDir]; decide⟩

/-- The directory `d` lists `bad1`, `ok1`, `bad2`, `ok2`; the first and the
third fail.  All four are processed and the error returned is that of `bad2`. -/
theorem processDir_continues_after_failure_witness :
    (osReaddirnames ["d"] mixed).1 = .ok ["bad1", "ok1", "bad2", "ok2"] ∧
    childResults rfc3339 ⟨false, false⟩ ["d"] (threshold 14) Time.zero
      ["bad1", "ok1", "bad2", "ok2"] (record (.readdir ["d"]) mixed) =
      [some (parseError "not-a-date"), none, some (parseError "yesterday"), none] ∧
    (processDir rfc3339 ⟨false, false⟩ ["d"] (threshold 14) Time.zero 0 mixed).1 =
      some (parseError "yesterday") ∧
    (processDir rfc3339 ⟨false, false⟩ ["d"] (threshold 14) Time.zero 0 mixed).2.calls =
      [.readdir ["d"], .stat ["d", "bad1"], .getxattr ["d", "bad1"],
        .setxattr ["d", "bad1"] "2026-11-04T11:59:59Z", .stat ["d", "ok1"],
        .getxattr ["d", "ok1"], .stat ["d", "bad2"], .getxattr ["d", "bad2"],
        .setxattr ["d", "bad2"] "2026-11-04T12:00:00Z", .stat ["d", "ok2"],
        .getxattr ["d", "ok2"]] :=
  have h := processDir_continues_after_failure rfc3339 ⟨false, false⟩ ["d"] (threshold 14)
    Time.zero mixed ["bad1", "ok1", "bad2", "ok2"] (record (.readdir ["d"]) mixed)
    (Prod.ext (by decide) rfl)
  have hc : childResults rfc3339 ⟨false, false⟩ ["d"] (threshold 14) Time.zero
      ["bad1", "ok1", "bad2", "ok2"] (record (.readdir ["d"]) mixed) =
      [some (parseError "not-a-date"), none, some (parseError "yesterday"), none] := by
    simp only [childResults, process, processDir]
    decide
  have hl : osReaddirnames ["d"] mixed =
      (.ok ["bad1", "ok1", "bad2", "ok2"], record (.readdir ["d"]) mixed) :=
    Prod.ext (by decide) rfl
  ⟨by decide, hc, by rw [h.2.2.1, hc]; decide, by
    rw [processDir, if_neg (by decide), hl]
    simp only [processChildren, process, processDir]
    decide⟩

end Trashman
